import Mathlib

/-!
Verification development for the adaptive remeshing kernel of the sculpting
engine (source: `src/lib/src/tool/sculpt/util/action.cpp`).

The combinatorial and rational-arithmetic parts of the kernel are embedded
shallowly below.  Vertex positions (C++ `glm::vec3` of `float`) are modelled
as exact rationals `V3`; the purely geometric split-position computation,
which involves `normalize` (a square root), is modelled separately over the
reals in namespace `SplitGeo`.

The mesh store (`DynamicMesh`) and the face set (`DynamicFaces`) are not part
of the provided sources (only `dynamic/mesh.hpp` / `dynamic/faces.hpp` are
included by `action.cpp`); they are modelled from the specification, §4.1,
§4.2 and §9: index-stable vertex/face arrays whose free slots are recycled
LIFO (the spec's free-lists; the LIFO discipline is also documented by the
source's own assertions `newLeftFace == rightFace` / `newRightFace ==
leftFace` in `relaxEdges`), adjacency recovered by scanning faces in index
order, and a two-phase face set with a committed list and an uncommitted
staging list, iterated in insertion order (the spec leaves the order
unspecified but deterministic).
-/

namespace Dilay

/-- Exact-rational model of `glm::vec3` positions. -/
structure V3 where
  x : ℚ
  y : ℚ
  z : ℚ
deriving DecidableEq, Repr

/-- Squared distance between two positions, `glm::distance2`. -/
def distance2 (p q : V3) : ℚ :=
  (p.x - q.x) ^ 2 + (p.y - q.y) ^ 2 + (p.z - q.z) ^ 2

/-- Midpoint of two positions, `Util::between`. -/
def between (p q : V3) : V3 :=
  ⟨(p.x + q.x) / 2, (p.y + q.y) / 2, (p.z + q.z) / 2⟩

/-- A face: the ordered vertex-index triple `(i1, i2, i3)`. -/
structure Face where
  v1 : ℕ
  v2 : ℕ
  v3 : ℕ
deriving DecidableEq, Repr

/-- Does face `f` reference vertex index `i`? -/
def Face.has (f : Face) (i : ℕ) : Bool :=
  f.v1 == i || f.v2 == i || f.v3 == i

/-- Modelled from the spec (§4.1, §9; `dynamic/mesh.hpp` is not in the
provided sources): the indexed mesh store.  `verts`/`faces` are slot arrays
(`none` = free slot); `freeVerts`/`freeFaces` are the LIFO free-lists of
recyclable slots.  Vertex normals are not modelled: in the embedded
routines they are a write-only geometric payload (only `finalize` and the
split-position computation touch them; the latter is treated in
`SplitGeo`). -/
structure DMesh where
  verts : List (Option V3)
  freeVerts : List ℕ
  faces : List (Option Face)
  freeFaces : List ℕ
deriving DecidableEq, Repr

/-- The face stored in slot `i`, if `i` is a live face index. -/
def DMesh.faceAt? (m : DMesh) (i : ℕ) : Option Face :=
  (m.faces.get? i).bind id

/-- `DynamicMesh::isFreeFace`. -/
def DMesh.isFreeFace (m : DMesh) (i : ℕ) : Bool :=
  (m.faceAt? i).isNone

/-- `DynamicMesh::isFreeVertex`. -/
def DMesh.isFreeVertex (m : DMesh) (i : ℕ) : Bool :=
  ((m.verts.get? i).bind id).isNone

/-- `DynamicMesh::vertexIndices` on a live face; on a free slot it returns a
junk face (the C++ would be in undefined territory there, and all call sites
below guard with `isFreeFace`). -/
def DMesh.vertexIndices (m : DMesh) (i : ℕ) : Face :=
  (m.faceAt? i).getD ⟨0, 0, 0⟩

/-- `DynamicMesh::vertex` (getter); junk default on a free slot. -/
def DMesh.vertex (m : DMesh) (i : ℕ) : V3 :=
  ((m.verts.get? i).bind id).getD ⟨0, 0, 0⟩

/-- `DynamicMesh::vertex` (setter): move vertex `i` to `p`. -/
def DMesh.setVertex (m : DMesh) (i : ℕ) (p : V3) : DMesh :=
  { m with verts := m.verts.set i (some p) }

/-- `DynamicMesh::adjacentFaces`: indices of the live faces referencing `v`,
in increasing index order (the spec does not fix the order of the adjacency
list; index order is the deterministic choice of this model). -/
def DMesh.adjacentFaces (m : DMesh) (v : ℕ) : List ℕ :=
  (List.range m.faces.length).filter (fun i =>
    match m.faces.get? i with
    | some (some f) => f.has v
    | _ => false)

/-- `DynamicMesh::valence`: the number of live faces referencing `v`. -/
def DMesh.valence (m : DMesh) (v : ℕ) : ℕ :=
  (m.adjacentFaces v).length

/-- `DynamicMesh::deleteFace`: free the slot and push it on the free-list. -/
def DMesh.deleteFace (m : DMesh) (i : ℕ) : DMesh :=
  { m with faces := m.faces.set i none, freeFaces := i :: m.freeFaces }

/-- `DynamicMesh::addFace`: recycle the most recently freed slot or append.
Returns the new face's index. -/
def DMesh.addFace (m : DMesh) (f : Face) : ℕ × DMesh :=
  match m.freeFaces with
  | j :: rest => (j, { m with faces := m.faces.set j (some f), freeFaces := rest })
  | [] => (m.faces.length, { m with faces := m.faces ++ [some f] })

/-- `DynamicMesh::deleteVertex`. -/
def DMesh.deleteVertex (m : DMesh) (i : ℕ) : DMesh :=
  { m with verts := m.verts.set i none, freeVerts := i :: m.freeVerts }

/-- `DynamicMesh::addVertex`: recycle the most recently freed slot or append.
Returns the new vertex's index. -/
def DMesh.addVertex (m : DMesh) (p : V3) : ℕ × DMesh :=
  match m.freeVerts with
  | j :: rest => (j, { m with verts := m.verts.set j (some p), freeVerts := rest })
  | [] => (m.verts.length, { m with verts := m.verts ++ [some p] })

/-- `DynamicMesh::isEmpty`: no live face remains. -/
def DMesh.isEmpty (m : DMesh) : Bool :=
  m.faces.all Option.isNone

/-- Indices of the live faces, in increasing order. -/
def DMesh.liveFaceIndices (m : DMesh) : List ℕ :=
  (List.range m.faces.length).filter (fun i => !(m.isFreeFace i))

/-- Build a mesh from plain vertex/face lists (all slots live, empty
free-lists), as produced by consecutive `addVertex`/`addFace` calls on an
empty mesh. -/
def mkMesh (vs : List V3) (fs : List Face) : DMesh :=
  ⟨vs.map some, [], fs.map some, []⟩

/-- Modelled from the spec (§4.2; `dynamic/faces.hpp` is not in the provided
sources): the two-phase face set.  `committed` and `uncommitted` are
insertion-ordered duplicate-free lists. -/
structure DynFaces where
  committed : List ℕ
  uncommitted : List ℕ
deriving DecidableEq, Repr

/-- `DynamicFaces::contains` (membership in the committed view). -/
def DynFaces.containsIdx (fs : DynFaces) (i : ℕ) : Bool :=
  fs.committed.contains i

/-- `DynamicFaces::insert`: add to the staging buffer (set semantics: a face
already present in either part is not duplicated). -/
def DynFaces.insertIdx (fs : DynFaces) (i : ℕ) : DynFaces :=
  if fs.committed.contains i || fs.uncommitted.contains i then fs
  else { fs with uncommitted := fs.uncommitted ++ [i] }

/-- Insert a batch of indices. -/
def DynFaces.insertMany (fs : DynFaces) (l : List ℕ) : DynFaces :=
  l.foldl DynFaces.insertIdx fs

/-- `DynamicFaces::commit`: merge staging into the committed view. -/
def DynFaces.commit (fs : DynFaces) : DynFaces :=
  ⟨fs.committed ++ fs.uncommitted, []⟩

/-- `DynamicFaces::filter`: keep only the committed members satisfying the
predicate. -/
def DynFaces.filterIdx (fs : DynFaces) (p : ℕ → Bool) : DynFaces :=
  { fs with committed := fs.committed.filter p }

/-- `makeUiKey`: the canonical unordered-pair key of an edge. -/
def makeUiKey (i1 i2 : ℕ) : ℕ × ℕ :=
  (min i1 i2, max i1 i2)

/-- The `NewVertices` map from canonical edge key to the index of the new
midpoint vertex (`std::unordered_map` modelled as an insertion-ordered
association list). -/
def NewVerts : Type := List ((ℕ × ℕ) × ℕ)

instance : DecidableEq NewVerts := by
  unfold NewVerts
  infer_instance

/-- `NewVertices::findVertex`. -/
def NewVerts.findVertex (nv : NewVerts) (i1 i2 : ℕ) : Option ℕ :=
  (nv.find? (fun e => e.1 == makeUiKey i1 i2)).map Prod.snd

/-- `NewVertices::hasVertex`. -/
def NewVerts.hasVertex (nv : NewVerts) (i1 i2 : ℕ) : Bool :=
  (nv.findVertex i1 i2).isSome

/-- `NewVertices::insertInEdge`. -/
def NewVerts.insertInEdge (nv : NewVerts) (i1 i2 i3 : ℕ) : NewVerts :=
  List.append nv [(makeUiKey i1 i2, i3)]

/-- The `NewFaces` batch: ordered triples to add plus face indices to delete
(`facesToDelete` is an `std::unordered_set`, modelled as an insertion-ordered
duplicate-free list). -/
structure NewFaces where
  vertexIndices : List Face
  facesToDelete : List ℕ
deriving DecidableEq, Repr

/-- The empty batch. -/
def NewFaces.empty : NewFaces := ⟨[], []⟩

/-- `NewFaces::addFace`. -/
def NewFaces.pushFace (nf : NewFaces) (f : Face) : NewFaces :=
  { nf with vertexIndices := nf.vertexIndices ++ [f] }

/-- `NewFaces::deleteFace` (set insert). -/
def NewFaces.markDelete (nf : NewFaces) (i : ℕ) : NewFaces :=
  if nf.facesToDelete.contains i then nf
  else { nf with facesToDelete := nf.facesToDelete ++ [i] }

/-- Add the batch's faces after the deletions, collecting the indices of the
added faces that `applyToMesh` inserts into the face set (face number `k`
is inserted iff `k ≥ |facesToDelete|`, source line `i >= facesToDelete.size
() * 3`). -/
def addLoop (del : ℕ) : DMesh → List ℕ → ℕ → List Face → DMesh × List ℕ
  | m, staged, _, [] => (m, staged)
  | m, staged, k, f :: rest =>
    let af := m.addFace f
    addLoop del af.2 (if del ≤ k then staged ++ [af.1] else staged) (k + 1) rest

/-- `NewFaces::applyToMesh`: deletions first, then additions (unless the
deletions emptied the mesh); returns the mesh, the staged new-face indices
(those the C++ inserts into the `DynamicFaces` argument) and the boolean
result. -/
def NewFaces.applyToMesh (nf : NewFaces) (m : DMesh) : DMesh × List ℕ × Bool :=
  let m1 := nf.facesToDelete.foldl DMesh.deleteFace m
  if m1.isEmpty then (m1, [], false)
  else
    let res := addLoop nf.facesToDelete.length m1 [] 0 nf.vertexIndices
    (res.1, res.2, decide (nf.facesToDelete.length ≤ nf.vertexIndices.length))

/-- Result record of `findAdjacent`; `none` models the C++ sentinel
`Util::invalidIndex ()`. -/
structure AdjResult where
  leftFace : Option ℕ
  leftVertex : Option ℕ
  rightFace : Option ℕ
  rightVertex : Option ℕ
deriving DecidableEq, Repr

/-- One step of the `findAdjacent` scan: check the six edge patterns of face
`a` and record it as left or right face with its opposite vertex (later
matches overwrite earlier ones, as in the source's loop). -/
def adjStep (m : DMesh) (e1 e2 : ℕ) (r : AdjResult) (a : ℕ) : AdjResult :=
  let f := m.vertexIndices a
  if e1 = f.v1 ∧ e2 = f.v2 then { r with leftFace := some a, leftVertex := some f.v3 }
  else if e1 = f.v2 ∧ e2 = f.v1 then { r with rightFace := some a, rightVertex := some f.v3 }
  else if e1 = f.v2 ∧ e2 = f.v3 then { r with leftFace := some a, leftVertex := some f.v1 }
  else if e1 = f.v3 ∧ e2 = f.v2 then { r with rightFace := some a, rightVertex := some f.v1 }
  else if e1 = f.v3 ∧ e2 = f.v1 then { r with leftFace := some a, leftVertex := some f.v2 }
  else if e1 = f.v1 ∧ e2 = f.v3 then { r with rightFace := some a, rightVertex := some f.v2 }
  else r

/-- `findAdjacent`: scan the faces adjacent to `e1` for the two faces of the
edge `(e1,e2)`; a face traversing `e1 → e2` is the left face, one traversing
`e2 → e1` the right face, each with its opposite vertex. -/
def findAdjacent (m : DMesh) (e1 e2 : ℕ) : AdjResult :=
  (m.adjacentFaces e1).foldl (adjStep m e1 e2) ⟨none, none, none, none⟩

/-- `deleteValence3Vertex`: if the three neighbours of the valence-3 vertex
`i` all have valence above 3, delete the three incident faces and `i` and add
the face of the neighbours (winding taken from the first incident face); the
new face index is inserted into the face set.  The C++ asserts `valence i ==
3`; a call violating it is modelled as a rejection. -/
def deleteValence3Vertex (m : DMesh) (i : ℕ) (fs : DynFaces) :
    Bool × DMesh × DynFaces :=
  match m.adjacentFaces i with
  | adj1 :: adj2 :: adj3 :: [] =>
    let f1 := m.vertexIndices adj1
    let f2 := m.vertexIndices adj2
    let newI12 :=
      if i = f1.v1 then (f1.v2, f1.v3)
      else if i = f1.v2 then (f1.v3, f1.v1)
      else (f1.v1, f1.v2)
    let newI1 := newI12.1
    let newI2 := newI12.2
    let newI3 :=
      if f2.v1 ≠ newI1 ∧ f2.v1 ≠ newI2 then f2.v1
      else if f2.v2 ≠ newI1 ∧ f2.v2 ≠ newI2 then f2.v2
      else f2.v3
    if m.valence newI1 > 3 ∧ m.valence newI2 > 3 ∧ m.valence newI3 > 3 then
      let m1 := ((m.deleteFace adj1).deleteFace adj2).deleteFace adj3
      let m2 := m1.deleteVertex i
      let added := m2.addFace ⟨newI1, newI2, newI3⟩
      (true, added.2, fs.insertIdx added.1)
    else
      (false, m, fs)
  | _ => (false, m, fs)

/-- One step of the `addFaces` helper of `collapseEdge`, for the face `a`
incident to `i1`: re-emit the face with `{i1, i2}` replaced by `newI` when it
has two corners outside `{i1, i2}` (a link face, containing both endpoints,
is not re-emitted), and mark the face for deletion. -/
def collapseAddFacesStep (m : DMesh) (newI i1 i2 : ℕ) (nf : NewFaces) (a : ℕ) :
    NewFaces :=
  let f := m.vertexIndices a
  let a1Adj := f.v1 ≠ i1 ∧ f.v1 ≠ i2
  let a2Adj := f.v2 ≠ i1 ∧ f.v2 ≠ i2
  let a3Adj := f.v3 ≠ i1 ∧ f.v3 ≠ i2
  let nf' :=
    if a1Adj ∧ a2Adj then nf.pushFace ⟨newI, f.v1, f.v2⟩
    else if a2Adj ∧ a3Adj then nf.pushFace ⟨newI, f.v2, f.v3⟩
    else if a3Adj ∧ a1Adj then nf.pushFace ⟨newI, f.v3, f.v1⟩
    else nf
  nf'.markDelete a

/-- The `addFaces` helper of `collapseEdge`: run the step over every face
incident to `i1`. -/
def collapseAddFaces (nf : NewFaces) (m : DMesh) (newI i1 i2 : ℕ) : NewFaces :=
  (m.adjacentFaces i1).foldl (collapseAddFacesStep m newI i1 i2) nf

/-- The successor of vertex `i` in the cyclic order of face `a` (the
`getSuccessor` helper of `numCommonAdjacentVertices`); junk on the impossible
branch where `i` is not in the face. -/
def getSuccessor (m : DMesh) (i a : ℕ) : ℕ :=
  let f := m.vertexIndices a
  if i = f.v1 then f.v2
  else if i = f.v2 then f.v3
  else if i = f.v3 then f.v1
  else 0

/-- `numCommonAdjacentVertices`: count the matches between the successors of
`i1` (omitting `i2`) and the successors of `i2`. -/
def numCommonAdjacentVertices (m : DMesh) (i1 i2 : ℕ) : ℕ :=
  (m.adjacentFaces i1).foldl (fun n a1 =>
    let succI1 := getSuccessor m i1 a1
    if succI1 ≠ i2 then
      n + (m.adjacentFaces i2).countP (fun a2 => getSuccessor m i2 a2 = succI1)
    else n) 0

/-- `collapseEdge (mesh, i1, i2, faces)`.  The result is the boolean, the
mesh, and the face set as the function body leaves them.  The C++ signature
takes `DynamicFaces faces` BY VALUE, so call sites that pass a set receive
none of the insertions back; that call-site behaviour is modelled at the call
sites, which discard the third component.  A `findAdjacent` miss (the C++
would fail its assertions) is modelled as a rejection. -/
def collapseEdge (m : DMesh) (i1 i2 : ℕ) (fs : DynFaces) :
    Bool × DMesh × DynFaces :=
  let v1 := m.valence i1
  let v2 := m.valence i2
  let newPos := between (m.vertex i1) (m.vertex i2)
  if v1 = 3 then
    let r := deleteValence3Vertex m i1 fs
    if r.1 then (true, r.2.1.setVertex i2 newPos, r.2.2) else (false, m, fs)
  else if v2 = 3 then
    let r := deleteValence3Vertex m i2 fs
    if r.1 then (true, r.2.1.setVertex i1 newPos, r.2.2) else (false, m, fs)
  else
    match findAdjacent m i1 i2 with
    | ⟨some _, some leftVertex, some _, some rightVertex⟩ =>
      if leftVertex = rightVertex then (false, m, fs)
      else if m.valence leftVertex = 3 ∨ m.valence rightVertex = 3 then (false, m, fs)
      else if numCommonAdjacentVertices m i1 i2 = 2 then
        let av := m.addVertex newPos
        let newI := av.1
        let m1 := av.2
        let nf := collapseAddFaces (collapseAddFaces NewFaces.empty m1 newI i1 i2) m1 newI i2 i1
        let ap := nf.applyToMesh m1
        let m3 := (ap.1.deleteVertex i1).deleteVertex i2
        (true, m3, fs.insertMany ap.2.1)
      else (false, m, fs)
    | _ => (false, m, fs)

/-- The loop body of a `collapseEdges` scan for one face index `i` (source
lines 871–888): on a non-free face, try the predicate on the three edges
`(i1,i2)`, `(i1,i3)`, `(i2,i3)` in an else-if chain and call `collapseEdge`
on the first edge whose predicate holds.  `collapseEdge` receives the
`DynamicFaces` argument by value, so its face-set insertions are discarded:
only the boolean and the mesh survive the call. -/
def scanFace (pred : DMesh → ℕ → ℕ → Bool) (st : DMesh × Bool) (i : ℕ) :
    DMesh × Bool :=
  let m := st.1
  let collapsed := st.2
  if m.isFreeFace i then (m, collapsed)
  else
    let f := m.vertexIndices i
    if pred m f.v1 f.v2 then
      let r := collapseEdge m f.v1 f.v2 ⟨[], []⟩
      (r.2.1, r.1 || collapsed)
    else if pred m f.v1 f.v3 then
      let r := collapseEdge m f.v1 f.v3 ⟨[], []⟩
      (r.2.1, r.1 || collapsed)
    else if pred m f.v2 f.v3 then
      let r := collapseEdge m f.v2 f.v3 ⟨[], []⟩
      (r.2.1, r.1 || collapsed)
    else (m, collapsed)

/-- One do-while iteration of `collapseEdges`: commit the staging buffer of
`current` into itself and into `faces`, then scan the committed indices. -/
def collapsePass (pred : DMesh → ℕ → ℕ → Bool)
    (m : DMesh) (faces current : DynFaces) (collapsed : Bool) :
    DMesh × DynFaces × DynFaces × Bool :=
  let faces1 := faces.insertMany current.uncommitted
  let current1 := current.commit
  let scanned := current1.committed.foldl (scanFace pred) (m, collapsed)
  (scanned.1, faces1, current1, scanned.2)

/-- The do-while loop of `collapseEdges`, with fuel and an iteration counter.
Because `collapseEdge` takes its `DynamicFaces` parameter by value, nothing
is ever inserted into `current` during a scan; whether the loop therefore
always stops after one iteration is proved below, not assumed here. -/
def collapseLoop (pred : DMesh → ℕ → ℕ → Bool) :
    ℕ → DMesh → DynFaces → DynFaces → Bool → DMesh × DynFaces × Bool × ℕ
  | 0, m, faces, _, collapsed => (m, faces, collapsed, 0)
  | fuel + 1, m, faces, current, collapsed =>
    let p := collapsePass pred m faces current collapsed
    if p.2.2.1.uncommitted.isEmpty then (p.1, p.2.1, p.2.2.2, 1)
    else
      let rec2 := collapseLoop pred fuel p.1 p.2.1 p.2.2.1 p.2.2.2
      (rec2.1, rec2.2.1, rec2.2.2.1, rec2.2.2.2 + 1)

/-- `collapseEdges (mesh, doCollapse, faces)`: run the scan loop, then filter
the face set down to the non-free faces and commit.  Also returns the number
of executed do-while iterations. -/
def collapseEdges (pred : DMesh → ℕ → ℕ → Bool) (m : DMesh) (faces : DynFaces) :
    DMesh × DynFaces × Bool × ℕ :=
  let current : DynFaces := DynFaces.insertMany ⟨[], []⟩ faces.committed
  let r := collapseLoop pred (faces.committed.length + m.faces.length + 1) m faces current false
  let faces2 := (r.2.1.filterIdx (fun f => !(r.1.isFreeFace f))).commit
  (r.1, faces2, r.2.2.1, r.2.2.2)

/-- `minEdgeLength = 0.001f`. -/
def minEdgeLength : ℚ := 1 / 1000

/-- `collapseEdgesByLength`: the predicate is squared edge length below
`maxEdgeLengthSqr` (the C++ predicate reads the mesh's current vertex
positions). -/
def collapseEdgesByLength (maxEdgeLengthSqr : ℚ) (m : DMesh) (faces : DynFaces) :
    DMesh × DynFaces × Bool × ℕ :=
  collapseEdges (fun m i1 i2 => distance2 (m.vertex i1) (m.vertex i2) < maxEdgeLengthSqr)
    m faces

/-- `ToolSculptAction::collapseDegeneratedEdges`: collect every live face,
collapse by length with threshold `minEdgeLength²`, and return the mesh and
the boolean.  `finalize` and `bufferData` only recompute normals and GPU
buffers, which this model does not carry. -/
def collapseDegeneratedEdges (m : DMesh) : DMesh × Bool :=
  let faces := (DynFaces.insertMany ⟨[], []⟩ m.liveFaceIndices).commit
  let r := collapseEdgesByLength (minEdgeLength * minEdgeLength) m faces
  (r.1, r.2.2.1)

/-- `splitEdges (mesh, newV, maxLength, faces)`.  The geometric payload of
the new vertex (`getSplitPosition` and the averaged normal, float code
treated over ℝ in `SplitGeo`) is abstracted into the position-valued
parameter `splitPos`, which the membership behaviour being verified never
inspects.  For each committed face, each of the three edges whose key is not
yet in `newV` is split when over-long; the face is kept in the filtered set
iff `wasSplit` was set during its own processing. -/
def splitEdges (splitPos : ℕ → ℕ → V3) (m : DMesh) (nv : NewVerts)
    (maxLength : ℚ) (fs : DynFaces) : DMesh × NewVerts × DynFaces :=
  let split := fun (m : DMesh) (nv : NewVerts) (i1 i2 : ℕ) =>
    if distance2 (m.vertex i1) (m.vertex i2) > maxLength * maxLength then
      let (i3, m') := m.addVertex (splitPos i1 i2)
      (true, m', nv.insertInEdge i1 i2 i3)
    else (false, m, nv)
  let step := fun (st : DMesh × NewVerts × List ℕ) (f : ℕ) =>
    let (m, nv, kept) := st
    let tri := m.vertexIndices f
    let (s1, m, nv) :=
      if nv.hasVertex tri.v1 tri.v2 then (false, m, nv)
      else split m nv tri.v1 tri.v2
    let (s2, m, nv) :=
      if nv.hasVertex tri.v1 tri.v3 then (false, m, nv)
      else split m nv tri.v1 tri.v3
    let (s3, m, nv) :=
      if nv.hasVertex tri.v2 tri.v3 then (false, m, nv)
      else split m nv tri.v2 tri.v3
    (m, nv, if s1 || s2 || s3 then kept ++ [f] else kept)
  let (m', nv', kept) := fs.committed.foldl step (m, nv, [])
  (m', nv', { fs with committed := kept })

/-- The per-face body of `triangulate` (the callback passed to
`forEachFaceExt`, source lines 381–478): given the face's vertex triple, the
current valences of its three corners and the midpoint lookups of its three
edges, return `none` when the face is left alone and otherwise the fan of
replacement faces (the face itself is deleted). -/
def triangulateFace (i1 i2 i3 v1 v2 v3 : ℕ) (it12 it13 it23 : Option ℕ) :
    Option (List Face) :=
  match it12, it13, it23 with
  | none, none, none => none
  | some m12, none, none =>
    some [⟨i1, m12, i3⟩, ⟨i3, m12, i2⟩]
  | none, some m13, none =>
    some [⟨i3, m13, i2⟩, ⟨i2, m13, i1⟩]
  | none, none, some m23 =>
    some [⟨i2, m23, i1⟩, ⟨i1, m23, i3⟩]
  | some m12, some m13, none =>
    some (⟨m12, m13, i1⟩ ::
      (if v2 < v3 then [⟨i2, i3, m13⟩, ⟨i2, m13, m12⟩]
       else [⟨i3, m12, i2⟩, ⟨i3, m13, m12⟩]))
  | some m12, none, some m23 =>
    some (⟨m23, m12, i2⟩ ::
      (if v1 < v3 then [⟨i1, m23, i3⟩, ⟨i1, m12, m23⟩]
       else [⟨i3, i1, m12⟩, ⟨i3, m12, m23⟩]))
  | none, some m13, some m23 =>
    some (⟨m13, m23, i3⟩ ::
      (if v1 < v2 then [⟨i1, i2, m23⟩, ⟨i1, m23, m13⟩]
       else [⟨i2, m13, i1⟩, ⟨i2, m23, m13⟩]))
  | some m12, some m13, some m23 =>
    some [⟨m12, m23, m13⟩, ⟨i1, m12, m13⟩, ⟨i2, m23, m12⟩, ⟨i3, m13, m23⟩]

/-- Modelled from the spec (§4.3, the fan table of "Triangulation after
split"): the replacement faces for a committed face `(i1,i2,i3)` given which
edges hold new midpoints; in the two-midpoint rows the remaining quad is
split by comparing the valences of the two non-apex corners with strict
less-than. -/
def triangulateFaceSpec (i1 i2 i3 v1 v2 v3 : ℕ) (it12 it13 it23 : Option ℕ) :
    Option (List Face) :=
  match it12, it13, it23 with
  | none, none, none => none
  | some m12, none, none => some [⟨i1, m12, i3⟩, ⟨i3, m12, i2⟩]
  | none, some m13, none => some [⟨i3, m13, i2⟩, ⟨i2, m13, i1⟩]
  | none, none, some m23 => some [⟨i2, m23, i1⟩, ⟨i1, m23, i3⟩]
  | some m12, some m13, none =>
    if v2 < v3 then some [⟨m12, m13, i1⟩, ⟨i2, i3, m13⟩, ⟨i2, m13, m12⟩]
    else some [⟨m12, m13, i1⟩, ⟨i3, m12, i2⟩, ⟨i3, m13, m12⟩]
  | some m12, none, some m23 =>
    if v1 < v3 then some [⟨m23, m12, i2⟩, ⟨i1, m23, i3⟩, ⟨i1, m12, m23⟩]
    else some [⟨m23, m12, i2⟩, ⟨i3, i1, m12⟩, ⟨i3, m12, m23⟩]
  | none, some m13, some m23 =>
    if v1 < v2 then some [⟨m13, m23, i3⟩, ⟨i1, i2, m23⟩, ⟨i1, m23, m13⟩]
    else some [⟨m13, m23, i3⟩, ⟨i2, m13, i1⟩, ⟨i2, m23, m13⟩]
  | some m12, some m13, some m23 =>
    some [⟨m12, m23, m13⟩, ⟨i1, m12, m13⟩, ⟨i2, m23, m12⟩, ⟨i3, m13, m23⟩]

/-- The `isRelaxable` predicate of `relaxEdges` (source lines 489–502), on
the valences read from the mesh: `vE1 > 3 && vE2 > 3 && post < pre` where
`pre` sums `|v - 6|` and `post` sums `|v - 6 - 1|` over the edge endpoints
and `|v - 6 + 1|` over the opposite vertices, in `int` arithmetic. -/
def isRelaxable (m : DMesh) (e : ℕ × ℕ) (leftVertex rightVertex : ℕ) : Bool :=
  let vE1 : ℤ := m.valence e.1
  let vE2 : ℤ := m.valence e.2
  let vL : ℤ := m.valence leftVertex
  let vR : ℤ := m.valence rightVertex
  let pre := |vE1 - 6| + |vE2 - 6| + |vL - 6| + |vR - 6|
  let post := |vE1 - 6 - 1| + |vE2 - 6 - 1| + |vL - 6 + 1| + |vR - 6 + 1|
  decide (vE1 > 3) && decide (vE2 > 3) && decide (post < pre)

/-- Insert a canonical edge key into the `EdgeSet` (an `std::unordered_set`,
modelled as an insertion-ordered duplicate-free list). -/
def edgeSetInsert (es : List (ℕ × ℕ)) (i1 i2 : ℕ) : List (ℕ × ℕ) :=
  if es.contains (makeUiKey i1 i2) then es else es ++ [makeUiKey i1 i2]

/-- The unique vertices incident to the committed faces of `fs`, in first-
occurrence order (the spec's `forEachVertex (faces, fn)`). -/
def regionVertices (m : DMesh) (fs : DynFaces) : List ℕ :=
  (fs.committed.foldr (fun i acc =>
    let f := m.vertexIndices i
    f.v1 :: f.v2 :: f.v3 :: acc) []).dedup

/-- The candidate edge set of `relaxEdges`: for every region vertex of
valence above 6, the canonical keys of all edges of its incident faces that
contain it. -/
def buildEdgeSet (m : DMesh) (fs : DynFaces) : List (ℕ × ℕ) :=
  (regionVertices m fs).foldl (fun es i =>
    if m.valence i > 6 then
      (m.adjacentFaces i).foldl (fun es a =>
        let f := m.vertexIndices a
        let es := if i ≠ f.v1 then edgeSetInsert es i f.v1 else es
        let es := if i ≠ f.v2 then edgeSetInsert es i f.v2 else es
        if i ≠ f.v3 then edgeSetInsert es i f.v3 else es) es
    else es) []

/-- The flip step of `relaxEdges` for one candidate edge: find the two
incident faces and the opposite vertices; if the edge is relaxable, delete
the two faces and add `(vL, e1, vR)` and `(vR, e2, vL)`.  A `findAdjacent`
miss (the C++ would fail its assertions) is modelled as leaving the mesh
unchanged. -/
def relaxStep (m : DMesh) (e : ℕ × ℕ) : DMesh :=
  match findAdjacent m e.1 e.2 with
  | ⟨some leftFace, some leftVertex, some rightFace, some rightVertex⟩ =>
    if isRelaxable m e leftVertex rightVertex then
      let m1 := (m.deleteFace leftFace).deleteFace rightFace
      let (_, m2) := m1.addFace ⟨leftVertex, e.1, rightVertex⟩
      let (_, m3) := m2.addFace ⟨rightVertex, e.2, leftVertex⟩
      m3
    else m
  | _ => m

/-- `relaxEdges (mesh, faces)`: build the deduplicated candidate edge set and
run the flip step over it. -/
def relaxEdges (m : DMesh) (fs : DynFaces) : DMesh :=
  (buildEdgeSet m fs).foldl relaxStep m

end Dilay

namespace SplitGeo

/-- Real-valued model of `glm::vec3` for the split-position geometry
(`getSplitPosition`, source lines 308–331); the `float` arithmetic is
idealised over ℝ, which is why these definitions are noncomputable. -/
structure RV3 where
  x : ℝ
  y : ℝ
  z : ℝ

instance : Add RV3 := ⟨fun a b => ⟨a.x + b.x, a.y + b.y, a.z + b.z⟩⟩

instance : SMul ℝ RV3 := ⟨fun c v => ⟨c * v.x, c * v.y, c * v.z⟩⟩

/-- `glm::dot`. -/
def dotR (a b : RV3) : ℝ :=
  a.x * b.x + a.y * b.y + a.z * b.z

/-- `glm::cross`. -/
def crossR (a b : RV3) : RV3 :=
  ⟨a.y * b.z - a.z * b.y, a.z * b.x - a.x * b.z, a.x * b.y - a.y * b.x⟩

/-- `glm::normalize`: the vector scaled by the inverse of its length. -/
noncomputable def normalizeR (v : RV3) : RV3 :=
  (1 / Real.sqrt (dotR v v)) • v

/-- `getSplitPosition (mesh, i1, i2)` on the positions and normals of the two
endpoints.  `Util::colinearUnit` is an external float test (`util.cpp` is not
in the provided sources; the spec says "dot ≈ ±1 within epsilon"), so it is a
parameter here. -/
noncomputable def getSplitPosition (colinearUnit : RV3 → RV3 → Bool)
    (p1 n1 p2 n2 : RV3) : RV3 :=
  if colinearUnit n1 n2 then
    (1 / 2 : ℝ) • (p1 + p2)
  else
    let n3 := normalizeR (crossR n1 n2)
    let d1 := dotR p1 n1
    let d2 := dotR p2 n2
    let d3 := dotR p1 n3
    let p3 := (1 / dotR n1 (crossR n2 n3)) •
      ((d1 • crossR n2 n3) + (d2 • crossR n3 n1) + (d3 • crossR n1 n2))
    ((1 / 4 : ℝ) • p1) + ((1 / 2 : ℝ) • p3) + ((1 / 4 : ℝ) • p2)

/-- The point the non-colinear branch names `p3` (three-plane intersection
candidate), exposed for the statement of the claim. -/
noncomputable def splitP3 (p1 n1 p2 n2 : RV3) : RV3 :=
  let n3 := normalizeR (crossR n1 n2)
  (1 / dotR n1 (crossR n2 n3)) •
    ((dotR p1 n1 • crossR n2 n3) + (dotR p2 n2 • crossR n3 n1) +
      (dotR p1 n3 • crossR n1 n2))

/-- The normal given to the vertex inserted by `splitEdges` (source line
340): `glm::normalize (mesh.vertexNormal i1 + mesh.vertexNormal i2)`. -/
noncomputable def splitVertexNormal (n1 n2 : RV3) : RV3 :=
  normalizeR (n1 + n2)

/-- Modelled from the spec (§4.3: "The new vertex's normal is
`normalize(n1 + n2)`"). -/
noncomputable def splitVertexNormalSpec (n1 n2 : RV3) : RV3 :=
  normalizeR (n1 + n2)

end SplitGeo

namespace Dilay

attribute [local semireducible] Rat.mul Rat.add Rat.inv Rat.sub

set_option maxRecDepth 100000

/-- An octahedron with one face barycentrically subdivided: vertex 6 sits
inside the former face `(0,1,2)` and has valence 3.  The positions make the
edge `(0,6)` the only one shorter than `minEdgeLength`; vertex 3 lies just
under `minEdgeLength` away from the midpoint of `(0,6)` but farther than
`minEdgeLength` from both 0 and 6, so collapsing `(0,6)` (which moves vertex
0 to that midpoint) creates a new short edge `(0,3)` whose two faces, at
indices 0 and 1, are scanned before the collapse is triggered at face 8. -/
def cexMesh : DMesh := mkMesh
  [⟨1/2000, 0, 0⟩, ⟨10, 0, 0⟩, ⟨0, 10, 0⟩, ⟨1/4000, 39/40000, 0⟩,
   ⟨0, 0, 10⟩, ⟨10, 10, 0⟩, ⟨0, 0, 0⟩]
  [⟨0, 2, 3⟩, ⟨0, 3, 4⟩, ⟨0, 4, 1⟩, ⟨5, 2, 1⟩, ⟨5, 3, 2⟩, ⟨5, 4, 3⟩,
   ⟨5, 1, 4⟩, ⟨1, 2, 6⟩, ⟨0, 1, 6⟩, ⟨2, 0, 6⟩]

/-- The face set holding every live face of `cexMesh`, as
`collapseDegeneratedEdges` builds it. -/
def cexFaces : DynFaces :=
  (DynFaces.insertMany ⟨[], []⟩ cexMesh.liveFaceIndices).commit

/-- Two faces sharing the single over-long edge `{0,1}`; all other edges are
shorter than the split threshold 6 used below. -/
def splitMesh : DMesh := mkMesh
  [⟨0, 0, 0⟩, ⟨10, 0, 0⟩, ⟨5, 1, 0⟩, ⟨5, -1, 0⟩]
  [⟨0, 1, 2⟩, ⟨1, 0, 3⟩]

/-- A regular octahedron (all valences 4, every edge longer than
`minEdgeLength`). -/
def octa : DMesh := mkMesh
  [⟨0, 0, 1⟩, ⟨1, 0, 0⟩, ⟨0, 1, 0⟩, ⟨-1, 0, 0⟩, ⟨0, -1, 0⟩, ⟨0, 0, -1⟩]
  [⟨0, 1, 2⟩, ⟨0, 2, 3⟩, ⟨0, 3, 4⟩, ⟨0, 4, 1⟩, ⟨5, 2, 1⟩, ⟨5, 3, 2⟩,
   ⟨5, 4, 3⟩, ⟨5, 1, 4⟩]

/-- A mesh on which the edge `(0,1)` is flipped by `relaxEdges`: vertex 0 is
a pole of valence 7, the edge's faces are slots 0 and 1, and the opposite
vertices are 2 and 3. -/
def flipMesh : DMesh := mkMesh
  (List.replicate 12 ⟨0, 0, 0⟩)
  [⟨0, 1, 2⟩, ⟨1, 0, 3⟩, ⟨0, 4, 5⟩, ⟨0, 5, 6⟩, ⟨0, 6, 7⟩, ⟨0, 7, 8⟩,
   ⟨0, 8, 4⟩, ⟨1, 9, 10⟩, ⟨1, 10, 11⟩]

/-- The number of live faces satisfying `p` (the slot-list counting view of
`valence`). -/
def liveCount (m : DMesh) (p : Face → Bool) : ℕ :=
  m.faces.countP (fun s => match s with | some f => p f | none => false)

/-- Well-formedness of one face slot: a live face references only live
vertices (spec invariant 5) and has three distinct corners (spec
invariant 3). -/
def FaceOk (m : DMesh) (s : Option Face) : Prop :=
  match s with
  | some f =>
    (m.isFreeVertex f.v1 = false ∧ m.isFreeVertex f.v2 = false ∧
      m.isFreeVertex f.v3 = false) ∧
    (f.v1 ≠ f.v2 ∧ f.v1 ≠ f.v3 ∧ f.v2 ≠ f.v3)
  | none => True

instance (m : DMesh) (s : Option Face) : Decidable (FaceOk m s) :=
  match s with
  | some f =>
    inferInstanceAs (Decidable ((m.isFreeVertex f.v1 = false ∧
      m.isFreeVertex f.v2 = false ∧ m.isFreeVertex f.v3 = false) ∧
      (f.v1 ≠ f.v2 ∧ f.v1 ≠ f.v3 ∧ f.v2 ≠ f.v3)))
  | none => inferInstanceAs (Decidable True)

/-- Well-formed mesh store (spec §3, §4.1): the free-lists are duplicate-free
and point at free slots, and every live face is `FaceOk`. -/
def WfMesh (m : DMesh) : Prop :=
  (∀ j ∈ m.freeVerts, m.verts.get? j = some none) ∧
  (∀ j ∈ m.freeFaces, m.faces.get? j = some none) ∧
  m.freeVerts.Nodup ∧ m.freeFaces.Nodup ∧
  ∀ s ∈ m.faces, FaceOk m s

/-- The face free-list part of well-formedness, the invariant threaded
through batched deletions and additions. -/
def GoodFaces (m : DMesh) : Prop :=
  (∀ j ∈ m.freeFaces, m.faces.get? j = some none) ∧ m.freeFaces.Nodup

/-- C3: for every committed face `(i1,i2,i3)` processed by `triangulate`
with midpoint lookups `it12/it13/it23` and corner valences `v1/v2/v3`, the
replacement faces are exactly those of the spec's fan table, with the
two-midpoint quads split by comparing the two non-apex corner valences with
strict less-than; both sides are functions of their arguments, so identical
inputs produce identical outputs. -/
theorem triangulateFace_eq_spec_table (i1 i2 i3 v1 v2 v3 : ℕ)
    (it12 it13 it23 : Option ℕ) :
    triangulateFace i1 i2 i3 v1 v2 v3 it12 it13 it23 =
      triangulateFaceSpec i1 i2 i3 v1 v2 v3 it12 it13 it23 := by
  cases it12 <;> cases it13 <;> cases it23 <;>
    simp only [triangulateFace, triangulateFaceSpec] <;>
    split <;> rfl

/-- C1: the code contradicts the claim.  `collapseEdge` receives its
`DynamicFaces` argument by value, so nothing a scan does can reach the scan
set's staging buffer: the first conjunct shows that after any single
do-while pass the scan set's staging buffer is empty, whatever happens
during the scan.  On `cexMesh` the length-based driver performs a successful
collapse whose `deleteValence3Vertex` stages the created face (index 9) into
its (discarded) by-value argument, yet the outer loop still executes exactly
one iteration: the created face is neither staged nor scanned in a next
iteration, and the loop terminates even though the iteration produced a new
face. -/
theorem collapseEdges_staging_lost :
    (∀ (pred : DMesh → ℕ → ℕ → Bool) (m : DMesh) (faces current : DynFaces)
      (c : Bool), (collapsePass pred m faces current c).2.2.1.uncommitted = []) ∧
    (collapseEdge cexMesh 0 6 ⟨[], []⟩).1 = true ∧
    (collapseEdge cexMesh 0 6 ⟨[], []⟩).2.2 = ⟨[], [9]⟩ ∧
    (collapseEdgesByLength (minEdgeLength * minEdgeLength) cexMesh cexFaces).2.2.1 = true ∧
    (collapseEdgesByLength (minEdgeLength * minEdgeLength) cexMesh cexFaces).2.2.2 = 1 := by
  refine ⟨fun pred m faces current c => rfl, ?_, ?_, ?_, ?_⟩ <;> decide

/-- C2: the code contradicts the claim.  On `splitMesh` the over-long edge
`{0,1}` is split while face 0 is processed and registered in `newV`; face 1,
whose stored triple is `(1,0,3)` and whose only over-long edge is that same
`{0,1}`, is then processed with `hasVertex` true, so `wasSplit` is never set
for it and the filter drops it: an edge of face 1 received a new midpoint
vertex during the pass, but face 1 is not in the filtered set. -/
theorem splitEdges_drops_registered_edge_face :
    ((splitEdges (fun _ _ => ⟨0, 0, 0⟩) splitMesh [] 6 ⟨[0, 1], []⟩).2.1).hasVertex 1 0 = true ∧
    splitMesh.vertexIndices 1 = ⟨1, 0, 3⟩ ∧
    (splitEdges (fun _ _ => ⟨0, 0, 0⟩) splitMesh [] 6 ⟨[0, 1], []⟩).2.2.committed = [0] := by
  refine ⟨?_, ?_, ?_⟩ <;> decide

/-- C7 counterexample: on `cexMesh`, face 8 is `(0,1,6)`; with the
always-true predicate its first edge `(0,1)` satisfies the predicate but
`collapseEdge` rejects it (an opposite vertex has valence 3), while its
second edge `(0,6)` also satisfies the predicate and its `collapseEdge`
succeeds.  The claim says the scan still performs that second collapse; the
scan in fact performs no collapse at all and leaves the mesh unchanged. -/
theorem collapseScan_skips_later_edges :
    cexMesh.isFreeFace 8 = false ∧
    cexMesh.vertexIndices 8 = ⟨0, 1, 6⟩ ∧
    (collapseEdge cexMesh 0 1 ⟨[], []⟩).1 = false ∧
    (collapseEdge cexMesh 0 6 ⟨[], []⟩).1 = true ∧
    scanFace (fun _ _ _ => true) (cexMesh, false) 8 = (cexMesh, false) := by
  refine ⟨?_, ?_, ?_, ?_, ?_⟩ <;> decide

/-- C7 as amended: for each non-free face the scan attempts `collapseEdge`
only on the first edge, in the order `(i1,i2)`, `(i1,i3)`, `(i2,i3)`, whose
predicate holds; the result of that single attempt is the result for the
face (a rejected attempt does not fall through to the remaining edges), and
a face none of whose edges satisfies the predicate is left alone. -/
theorem collapseScan_first_pred_edge_only (pred : DMesh → ℕ → ℕ → Bool)
    (m : DMesh) (c : Bool) (i : ℕ) (h : m.isFreeFace i = false) :
    (pred m (m.vertexIndices i).v1 (m.vertexIndices i).v2 = true →
      scanFace pred (m, c) i =
        ((collapseEdge m (m.vertexIndices i).v1 (m.vertexIndices i).v2 ⟨[], []⟩).2.1,
         (collapseEdge m (m.vertexIndices i).v1 (m.vertexIndices i).v2 ⟨[], []⟩).1 || c)) ∧
    (pred m (m.vertexIndices i).v1 (m.vertexIndices i).v2 = false →
      pred m (m.vertexIndices i).v1 (m.vertexIndices i).v3 = true →
      scanFace pred (m, c) i =
        ((collapseEdge m (m.vertexIndices i).v1 (m.vertexIndices i).v3 ⟨[], []⟩).2.1,
         (collapseEdge m (m.vertexIndices i).v1 (m.vertexIndices i).v3 ⟨[], []⟩).1 || c)) ∧
    (pred m (m.vertexIndices i).v1 (m.vertexIndices i).v2 = false →
      pred m (m.vertexIndices i).v1 (m.vertexIndices i).v3 = false →
      pred m (m.vertexIndices i).v2 (m.vertexIndices i).v3 = true →
      scanFace pred (m, c) i =
        ((collapseEdge m (m.vertexIndices i).v2 (m.vertexIndices i).v3 ⟨[], []⟩).2.1,
         (collapseEdge m (m.vertexIndices i).v2 (m.vertexIndices i).v3 ⟨[], []⟩).1 || c)) ∧
    (pred m (m.vertexIndices i).v1 (m.vertexIndices i).v2 = false →
      pred m (m.vertexIndices i).v1 (m.vertexIndices i).v3 = false →
      pred m (m.vertexIndices i).v2 (m.vertexIndices i).v3 = false →
      scanFace pred (m, c) i = (m, c)) := by
  refine ⟨fun h1 => ?_, fun h1 h2 => ?_, fun h1 h2 h3 => ?_, fun h1 h2 h3 => ?_⟩ <;>
    simp [scanFace, h, h1] <;> simp [h2] <;> simp [h3]

/-- C7 amended-claim witness: the characterization applied to `cexMesh` and
its face 8, whose first edge satisfies the always-true predicate. -/
theorem collapseScan_first_pred_edge_only_witness :
    scanFace (fun _ _ _ => true) (cexMesh, false) 8 =
      ((collapseEdge cexMesh (cexMesh.vertexIndices 8).v1 (cexMesh.vertexIndices 8).v2
          ⟨[], []⟩).2.1,
       (collapseEdge cexMesh (cexMesh.vertexIndices 8).v1 (cexMesh.vertexIndices 8).v2
          ⟨[], []⟩).1 || false) :=
  (collapseScan_first_pred_edge_only (fun _ _ _ => true) cexMesh false 8 (by decide)).1
    (by decide)

/-- Membership in the adjacency list gives range and liveness. -/
lemma mem_adjacentFaces {m : DMesh} {v a : ℕ} (h : a ∈ m.adjacentFaces v) :
    a < m.faces.length ∧ m.isFreeFace a = false := by
  unfold DMesh.adjacentFaces at h
  rcases List.mem_filter.mp h with ⟨hr, hp⟩
  refine ⟨List.mem_range.mp hr, ?_⟩
  unfold DMesh.isFreeFace DMesh.faceAt?
  rcases hget : m.faces.get? a with _ | s
  · rw [hget] at hp
    simp at hp
  · rcases s with _ | f
    · rw [hget] at hp
      simp at hp
    · rfl

/-- Each `findAdjacent` step either keeps a face field or sets it to the
scanned face. -/
lemma adjStep_fields (m : DMesh) (e1 e2 : ℕ) (r : AdjResult) (a : ℕ) :
    ((adjStep m e1 e2 r a).leftFace = r.leftFace ∨
      (adjStep m e1 e2 r a).leftFace = some a) ∧
    ((adjStep m e1 e2 r a).rightFace = r.rightFace ∨
      (adjStep m e1 e2 r a).rightFace = some a) := by
  unfold adjStep
  dsimp only
  repeat' split
  all_goals simp

/-- The faces reported by `findAdjacent` are faces adjacent to `e1`. -/
lemma findAdjacent_mem (m : DMesh) (e1 e2 : ℕ) :
    (∀ a, (findAdjacent m e1 e2).leftFace = some a → a ∈ m.adjacentFaces e1) ∧
    (∀ a, (findAdjacent m e1 e2).rightFace = some a → a ∈ m.adjacentFaces e1) := by
  unfold findAdjacent
  have main : ∀ (L : List ℕ) (r0 : AdjResult),
      (∀ x ∈ L, x ∈ m.adjacentFaces e1) →
      (∀ a, r0.leftFace = some a → a ∈ m.adjacentFaces e1) →
      (∀ a, r0.rightFace = some a → a ∈ m.adjacentFaces e1) →
      (∀ a, (L.foldl (adjStep m e1 e2) r0).leftFace = some a →
        a ∈ m.adjacentFaces e1) ∧
      (∀ a, (L.foldl (adjStep m e1 e2) r0).rightFace = some a →
        a ∈ m.adjacentFaces e1) := by
    intro L
    induction L with
    | nil => exact fun r0 _ hL hR => ⟨hL, hR⟩
    | cons x L ih =>
      intro r0 hmem hL hR
      rw [List.foldl_cons]
      refine ih (adjStep m e1 e2 r0 x)
        (fun y hy => hmem y (List.mem_cons_of_mem _ hy)) ?_ ?_
      · intro a ha
        rcases (adjStep_fields m e1 e2 r0 x).1 with hcase | hcase
        · exact hL a (hcase.symm.trans ha)
        · have hxa : some x = some a := hcase.symm.trans ha
          injection hxa with hxa
          exact hxa ▸ hmem x (List.mem_cons_self x L)
      · intro a ha
        rcases (adjStep_fields m e1 e2 r0 x).2 with hcase | hcase
        · exact hR a (hcase.symm.trans ha)
        · have hxa : some x = some a := hcase.symm.trans ha
          injection hxa with hxa
          exact hxa ▸ hmem x (List.mem_cons_self x L)
  exact main _ _ (fun x hx => hx) (fun a ha => by simp at ha)
    (fun a ha => by simp at ha)

/-- The flipped mesh, written out: the two face slots are freed and then
refilled LIFO with the two new faces. -/
lemma relaxStep_flip {m : DMesh} {e : ℕ × ℕ} {lf lv rf rv : ℕ}
    (hfa : findAdjacent m e.1 e.2 = ⟨some lf, some lv, some rf, some rv⟩)
    (hr : isRelaxable m e lv rv = true) :
    relaxStep m e =
      { m with faces := (((m.faces.set lf none).set rf none).set rf
          (some ⟨lv, e.1, rv⟩)).set lf (some ⟨rv, e.2, lv⟩) } := by
  unfold relaxStep
  rw [hfa]
  dsimp only
  rw [hr]
  dsimp only [DMesh.deleteFace, DMesh.addFace]
  simp

/-- A candidate edge that is not relaxable leaves the mesh unchanged. -/
lemma relaxStep_no_flip {m : DMesh} {e : ℕ × ℕ} {lf lv rf rv : ℕ}
    (hfa : findAdjacent m e.1 e.2 = ⟨some lf, some lv, some rf, some rv⟩)
    (hr : isRelaxable m e lv rv = false) : relaxStep m e = m := by
  unfold relaxStep
  rw [hfa]
  dsimp only
  rw [hr]
  simp

/-- The slot-level effect of a performed flip. -/
lemma relaxStep_flip_slots {m : DMesh} {e : ℕ × ℕ} {lf lv rf rv : ℕ}
    (hfa : findAdjacent m e.1 e.2 = ⟨some lf, some lv, some rf, some rv⟩)
    (hr : isRelaxable m e lv rv = true) (hne : lf ≠ rf) :
    (relaxStep m e).faceAt? rf = some ⟨lv, e.1, rv⟩ ∧
    (relaxStep m e).faceAt? lf = some ⟨rv, e.2, lv⟩ ∧
    ∀ i, i ≠ lf → i ≠ rf → (relaxStep m e).faceAt? i = m.faceAt? i := by
  have hlf : lf < m.faces.length :=
    (mem_adjacentFaces ((findAdjacent_mem m e.1 e.2).1 lf (by rw [hfa]))).1
  have hrf : rf < m.faces.length :=
    (mem_adjacentFaces ((findAdjacent_mem m e.1 e.2).2 rf (by rw [hfa]))).1
  rw [relaxStep_flip hfa hr]
  unfold DMesh.faceAt?
  dsimp only
  refine ⟨?_, ?_, ?_⟩
  · rw [List.get?_set_ne _ _ hne, List.get?_set_eq_of_lt _ (by simpa using hrf)]
    rfl
  · rw [List.get?_set_eq_of_lt _ (by simpa using hlf)]
    rfl
  · intro i h1 h2
    rw [List.get?_set_ne _ _ (fun h => h1 h.symm), List.get?_set_ne _ _ (fun h => h2 h.symm),
      List.get?_set_ne _ _ (fun h => h2 h.symm), List.get?_set_ne _ _ (fun h => h1 h.symm)]

/-- Any `relaxEdges` step preserves freeness of every face slot and the
length of the face array. -/
lemma relaxStep_free_pres (m : DMesh) (e : ℕ × ℕ) :
    (∀ i, (relaxStep m e).isFreeFace i = m.isFreeFace i) ∧
    (relaxStep m e).faces.length = m.faces.length := by
  have hid : relaxStep m e = m →
      (∀ i, (relaxStep m e).isFreeFace i = m.isFreeFace i) ∧
      (relaxStep m e).faces.length = m.faces.length :=
    fun h => ⟨fun i => by rw [h], by rw [h]⟩
  rcases hfa : findAdjacent m e.1 e.2 with ⟨olf, olv, orf, orv⟩
  rcases olf with _ | lf
  · exact hid (by unfold relaxStep; rw [hfa])
  rcases olv with _ | lv
  · exact hid (by unfold relaxStep; rw [hfa])
  rcases orf with _ | rf
  · exact hid (by unfold relaxStep; rw [hfa])
  rcases orv with _ | rv
  · exact hid (by unfold relaxStep; rw [hfa])
  rcases hr : isRelaxable m e lv rv with _ | _
  · exact ⟨fun i => by rw [relaxStep_no_flip hfa hr], by rw [relaxStep_no_flip hfa hr]⟩
  · have hlf : lf < m.faces.length ∧ m.isFreeFace lf = false :=
      mem_adjacentFaces ((findAdjacent_mem m e.1 e.2).1 lf (by rw [hfa]))
    have hrf : rf < m.faces.length ∧ m.isFreeFace rf = false :=
      mem_adjacentFaces ((findAdjacent_mem m e.1 e.2).2 rf (by rw [hfa]))
    rw [relaxStep_flip hfa hr]
    refine ⟨fun i => ?_, by simp⟩
    unfold DMesh.isFreeFace DMesh.faceAt?
    dsimp only
    by_cases h1 : i = lf
    · subst h1
      rw [List.get?_set_eq_of_lt _ (by simpa using hlf.1)]
      have := hlf.2
      unfold DMesh.isFreeFace DMesh.faceAt? at this
      rcases hget : m.faces.get? i with _ | s
      · rw [hget] at this
        simp at this
      · rcases s with _ | f
        · rw [hget] at this
          simp at this
        · rfl
    · by_cases h2 : i = rf
      · subst h2
        rw [List.get?_set_ne _ _ (fun h => h1 h.symm),
          List.get?_set_eq_of_lt _ (by simpa using hrf.1)]
        have := hrf.2
        unfold DMesh.isFreeFace DMesh.faceAt? at this
        rcases hget : m.faces.get? i with _ | s
        · rw [hget] at this
          simp at this
        · rcases s with _ | f
          · rw [hget] at this
            simp at this
          · rfl
      · rw [List.get?_set_ne _ _ (fun h => h1 h.symm), List.get?_set_ne _ _ (fun h => h2 h.symm),
          List.get?_set_ne _ _ (fun h => h2 h.symm), List.get?_set_ne _ _ (fun h => h1 h.symm)]

/-- The whole `relaxEdges` pass preserves freeness and length. -/
lemma relaxEdges_free_pres (m : DMesh) (fs : DynFaces) :
    (∀ i, (relaxEdges m fs).isFreeFace i = m.isFreeFace i) ∧
    (relaxEdges m fs).faces.length = m.faces.length := by
  unfold relaxEdges
  generalize buildEdgeSet m fs = L
  induction L generalizing m with
  | nil => exact ⟨fun i => rfl, rfl⟩
  | cons a L ih =>
    rw [List.foldl_cons]
    rcases ih (relaxStep m a) with ⟨ih1, ih2⟩
    rcases relaxStep_free_pres m a with ⟨h1, h2⟩
    exact ⟨fun i => (ih1 i).trans (h1 i), ih2.trans h2⟩

/-- Invariant preservation for `edgeSetInsert`. -/
lemma edgeSetInsert_inv {es : List (ℕ × ℕ)} {i1 i2 : ℕ}
    (hes : es.Nodup ∧ ∀ p ∈ es, p.1 < p.2) (hne : i1 ≠ i2) :
    (edgeSetInsert es i1 i2).Nodup ∧ ∀ p ∈ edgeSetInsert es i1 i2, p.1 < p.2 := by
  unfold edgeSetInsert
  split
  · exact hes
  · rename_i hmem
    constructor
    · rw [List.nodup_append]
      refine ⟨hes.1, List.nodup_singleton _, fun a ha hb => ?_⟩
      rw [List.mem_singleton] at hb
      subst hb
      have hnm : makeUiKey i1 i2 ∉ es := by simpa using hmem
      exact hnm ha
    · intro p hp
      rcases List.mem_append.mp hp with h | h
      · exact hes.2 p h
      · rw [List.mem_singleton] at h
        subst h
        exact min_lt_max.mpr hne

/-- Fold invariance with an explicit invariant. -/
lemma foldl_inv {α β : Type} (P : β → Prop) (f : β → α → β)
    (hf : ∀ b a, P b → P (f b a)) : ∀ (L : List α) (b : β), P b → P (L.foldl f b) := by
  intro L
  induction L with
  | nil => exact fun b hb => hb
  | cons x L ih => exact fun b hb => ih (f b x) (hf b x hb)

/-- The candidate edge set of `relaxEdges` is duplicate-free and holds only
canonical keys. -/
lemma buildEdgeSet_inv (m : DMesh) (fs : DynFaces) :
    (buildEdgeSet m fs).Nodup ∧ ∀ p ∈ buildEdgeSet m fs, p.1 < p.2 := by
  unfold buildEdgeSet
  refine foldl_inv (fun es : List (ℕ × ℕ) => es.Nodup ∧ ∀ p ∈ es, p.1 < p.2) _ ?_ _ _
    ⟨List.nodup_nil, by simp⟩
  intro es i hes
  dsimp only
  split
  · refine foldl_inv (fun es : List (ℕ × ℕ) => es.Nodup ∧ ∀ p ∈ es, p.1 < p.2) _ ?_ _ _ hes
    intro es2 a hes2
    dsimp only
    split <;> rename_i g3
    · split <;> rename_i g2
      · split <;> rename_i g1
        · exact edgeSetInsert_inv (edgeSetInsert_inv (edgeSetInsert_inv hes2 g1) g2) g3
        · exact edgeSetInsert_inv (edgeSetInsert_inv hes2 g2) g3
      · split <;> rename_i g1
        · exact edgeSetInsert_inv (edgeSetInsert_inv hes2 g1) g3
        · exact edgeSetInsert_inv hes2 g3
    · split <;> rename_i g2
      · split <;> rename_i g1
        · exact edgeSetInsert_inv (edgeSetInsert_inv hes2 g1) g2
        · exact edgeSetInsert_inv hes2 g2
      · split <;> rename_i g1
        · exact edgeSetInsert_inv hes2 g1
        · exact hes2
  · exact hes

/-- The code's `isRelaxable` test written against the spec's `pre`/`post`
formulas (`|v−7|`, `|v−5|` instead of the code's `|v−6−1|`, `|v−6+1|`). -/
lemma isRelaxable_iff (m : DMesh) (e : ℕ × ℕ) (lv rv : ℕ) :
    isRelaxable m e lv rv = true ↔
      3 < (m.valence e.1 : ℤ) ∧ 3 < (m.valence e.2 : ℤ) ∧
        |(m.valence e.1 : ℤ) - 7| + |(m.valence e.2 : ℤ) - 7| +
            |(m.valence lv : ℤ) - 5| + |(m.valence rv : ℤ) - 5| <
          |(m.valence e.1 : ℤ) - 6| + |(m.valence e.2 : ℤ) - 6| +
            |(m.valence lv : ℤ) - 6| + |(m.valence rv : ℤ) - 6| := by
  unfold isRelaxable
  dsimp only
  rw [show ((m.valence e.1 : ℤ) - 6 - 1) = (m.valence e.1 : ℤ) - 7 from by ring,
    show ((m.valence e.2 : ℤ) - 6 - 1) = (m.valence e.2 : ℤ) - 7 from by ring,
    show ((m.valence lv : ℤ) - 6 + 1) = (m.valence lv : ℤ) - 5 from by ring,
    show ((m.valence rv : ℤ) - 6 + 1) = (m.valence rv : ℤ) - 5 from by ring]
  simp [Bool.and_eq_true, decide_eq_true_eq, and_assoc, gt_iff_lt]

/-- C5: for a candidate edge `(e1,e2)` with opposite vertices `(vL,vR)`:
the flip test holds iff `v(e1) > 3 ∧ v(e2) > 3 ∧ post < pre` with the spec's
`pre`/`post` sums; a performed flip deletes the two incident faces and adds
`(vL,e1,vR)` and `(vR,e2,vL)` (and touches no other face slot), while a
failed test leaves the mesh unchanged; and the candidate edge set is
deduplicated by canonical key (duplicate-free, every key `(min,max)`
ordered), so each edge is considered at most once per pass. -/
theorem relaxEdges_flip_spec (m : DMesh) (fs : DynFaces) (e : ℕ × ℕ)
    (lf lv rf rv : ℕ) :
    (isRelaxable m e lv rv = true ↔
      3 < (m.valence e.1 : ℤ) ∧ 3 < (m.valence e.2 : ℤ) ∧
        |(m.valence e.1 : ℤ) - 7| + |(m.valence e.2 : ℤ) - 7| +
            |(m.valence lv : ℤ) - 5| + |(m.valence rv : ℤ) - 5| <
          |(m.valence e.1 : ℤ) - 6| + |(m.valence e.2 : ℤ) - 6| +
            |(m.valence lv : ℤ) - 6| + |(m.valence rv : ℤ) - 6|) ∧
    (findAdjacent m e.1 e.2 = ⟨some lf, some lv, some rf, some rv⟩ →
      (isRelaxable m e lv rv = false → relaxStep m e = m) ∧
      (isRelaxable m e lv rv = true → lf ≠ rf →
        (relaxStep m e).faceAt? rf = some ⟨lv, e.1, rv⟩ ∧
        (relaxStep m e).faceAt? lf = some ⟨rv, e.2, lv⟩ ∧
        ∀ i, i ≠ lf → i ≠ rf → (relaxStep m e).faceAt? i = m.faceAt? i)) ∧
    (buildEdgeSet m fs).Nodup ∧ (∀ p ∈ buildEdgeSet m fs, p.1 < p.2) := by
  exact ⟨isRelaxable_iff m e lv rv,
    fun hfa => ⟨fun hr => relaxStep_no_flip hfa hr,
      fun hr hne => relaxStep_flip_slots hfa hr hne⟩,
    (buildEdgeSet_inv m fs).1, (buildEdgeSet_inv m fs).2⟩

/-- C5 witness: on `flipMesh` the edge `(0,1)` (faces 0 and 1, opposite
vertices 2 and 3, valences 7/4/1/1) is relaxable, and the flip writes
`(2,0,3)` into slot 1 and `(3,1,2)` into slot 0. -/
theorem relaxEdges_flip_spec_witness :
    (relaxStep flipMesh (0, 1)).faceAt? 1 = some ⟨2, 0, 3⟩ ∧
    (relaxStep flipMesh (0, 1)).faceAt? 0 = some ⟨3, 1, 2⟩ := by
  have h := ((relaxEdges_flip_spec flipMesh ⟨[], []⟩ (0, 1) 0 2 1 3).2.1
    (by decide)).2 (by decide) (by decide)
  exact ⟨h.1, h.2.1⟩

/-- C10: a `relaxEdges` pass never changes the set of live face indices (so
any committed face set stays valid across the pass), and each flip reuses
exactly the two indices freed by deleting the edge's faces: with the LIFO
free-list, the first `addFace` (the new left face) receives the old right
face's index and the second (the new right face) the old left face's index,
matching the source's assertions. -/
theorem relaxEdges_preserves_live_faces (m : DMesh) (fs : DynFaces) :
    (∀ i, (relaxEdges m fs).isFreeFace i = m.isFreeFace i) ∧
    (relaxEdges m fs).liveFaceIndices = m.liveFaceIndices ∧
    ∀ (lf rf : ℕ) (A B : Face),
      (((m.deleteFace lf).deleteFace rf).addFace A).1 = rf ∧
      ((((m.deleteFace lf).deleteFace rf).addFace A).2.addFace B).1 = lf := by
  rcases relaxEdges_free_pres m fs with ⟨h1, h2⟩
  refine ⟨h1, ?_, fun lf rf A B => ⟨rfl, rfl⟩⟩
  unfold DMesh.liveFaceIndices
  rw [h2]
  exact List.filter_congr fun i _ => by rw [h1 i]

/-- Counting hits over the index range equals counting over the list. -/
lemma length_filter_range {α : Type} (Q : Option α → Bool) (l : List α) :
    ((List.range l.length).filter (fun i => Q (l.get? i))).length
      = l.countP (fun s => Q (some s)) := by
  induction l using List.reverseRecOn with
  | nil => rfl
  | append_singleton l a ih =>
    rw [List.length_append, List.length_singleton, List.range_succ, List.filter_append,
      List.length_append, List.countP_append]
    congr 1
    · rw [← ih]
      congr 1
      apply List.filter_congr
      intro i hi
      rw [List.get?_append (List.mem_range.mp hi)]
    · have hget : (l ++ [a]).get? l.length = some a := List.get?_concat_length l a
      cases hq : Q (some a) <;>
        simp [List.countP_cons, hget, hq]

/-- The valence of `v` counts the live faces referencing `v`. -/
lemma valence_eq_liveCount (m : DMesh) (v : ℕ) :
    m.valence v = liveCount m (fun f => f.has v) := by
  unfold DMesh.valence DMesh.adjacentFaces liveCount
  refine (length_filter_range
    (fun o => match o with | some (some f) => f.has v | _ => false) m.faces).trans ?_
  congr 1
  funext s
  cases s <;> rfl

/-- Overwriting a slot whose content fails the count predicate adds exactly
the new element's contribution. -/
lemma countP_set_of_get? {α : Type} (q : α → Bool) :
    ∀ (l : List α) (j : ℕ) (a b : α), l.get? j = some b → q b = false →
      (l.set j a).countP q = l.countP q + (if q a then 1 else 0) := by
  intro l
  induction l with
  | nil =>
    intro j a b h _
    simp at h
  | cons x l ih =>
    intro j a b h hb
    cases j with
    | zero =>
      injection h with h
      subst h
      simp [List.countP_cons, hb]
    | succ j =>
      show (x :: l.set j a).countP q = _
      rw [List.countP_cons, List.countP_cons, ih j a b h hb]
      omega

/-- `addVertex` leaves the face store untouched. -/
lemma addVertex_faces (m : DMesh) (p : V3) :
    ((m.addVertex p).2).faces = m.faces ∧ ((m.addVertex p).2).freeFaces = m.freeFaces := by
  unfold DMesh.addVertex
  cases m.freeVerts <;> exact ⟨rfl, rfl⟩

/-- `deleteVertex` leaves the face store untouched. -/
lemma deleteVertex_faces (m : DMesh) (i : ℕ) : ((m.deleteVertex i)).faces = m.faces :=
  rfl

/-- A mesh with a live face slot is not empty. -/
lemma isEmpty_false_of_get? {m : DMesh} {i : ℕ} {f : Face}
    (h : m.faces.get? i = some (some f)) : m.isEmpty = false := by
  have hmem : some f ∈ m.faces := List.get?_mem h
  by_contra hcon
  rw [Bool.not_eq_false] at hcon
  unfold DMesh.isEmpty at hcon
  have := List.all_eq_true.mp hcon (some f) hmem
  simp at this

/-- Adjacency membership exhibits the live face. -/
lemma mem_adjacentFaces_face {m : DMesh} {v a : ℕ} (h : a ∈ m.adjacentFaces v) :
    ∃ f, m.faces.get? a = some (some f) ∧ f.has v = true := by
  unfold DMesh.adjacentFaces at h
  rcases List.mem_filter.mp h with ⟨hr, hp⟩
  rcases hget : m.faces.get? a with _ | s
  · rw [hget] at hp
    simp at hp
  · rcases s with _ | f
    · rw [hget] at hp
      simp at hp
    · refine ⟨f, rfl, ?_⟩
      rw [hget] at hp
      simpa using hp

/-- The vertex index returned by `addVertex` is not referenced by any live
face of a well-formed mesh. -/
lemma addVertex_fresh {m : DMesh} (hwf : WfMesh m) (p : V3) :
    ∀ s ∈ m.faces, ∀ f : Face, s = some f → f.has (m.addVertex p).1 = false := by
  intro s hs f hf
  subst hf
  rcases hwf with ⟨hW1, _, _, _, hW5⟩
  have hok := hW5 _ hs
  unfold FaceOk at hok
  rcases hok with ⟨⟨hl1, hl2, hl3⟩, _⟩
  by_contra hcon
  rw [Bool.not_eq_false] at hcon
  have hfree : m.isFreeVertex (m.addVertex p).1 = true := by
    unfold DMesh.addVertex
    rcases hfv : m.freeVerts with _ | ⟨j, rest⟩
    · dsimp only
      unfold DMesh.isFreeVertex
      rw [List.get?_eq_none.mpr (le_refl _)]
      rfl
    · dsimp only
      unfold DMesh.isFreeVertex
      rw [hW1 j (by rw [hfv]; exact List.mem_cons_self _ _)]
      rfl
  unfold Face.has at hcon
  simp only [Bool.or_eq_true, beq_iff_eq] at hcon
  rcases hcon with (h | h) | h
  · rw [← h] at hfree
    rw [hl1] at hfree
    exact Bool.noConfusion hfree
  · rw [← h] at hfree
    rw [hl2] at hfree
    exact Bool.noConfusion hfree
  · rw [← h] at hfree
    rw [hl3] at hfree
    exact Bool.noConfusion hfree

/-- Deleting one live face keeps the free-list invariant and touches only its
slot. -/
lemma deleteFace_good {m : DMesh} {j : ℕ} {f : Face}
    (hj : m.faces.get? j = some (some f)) (hGF : GoodFaces m) :
    GoodFaces (m.deleteFace j) ∧
    (∀ i, i ≠ j → (m.deleteFace j).faces.get? i = m.faces.get? i) ∧
    (m.deleteFace j).faces.get? j = some none := by
  have hjlen : j < m.faces.length := by
    by_contra hcon
    rw [List.get?_eq_none.mpr (Nat.le_of_not_lt hcon)] at hj
    exact Option.noConfusion hj
  have hnotmem : j ∉ m.freeFaces := by
    intro hmem
    have := (hGF.1 j hmem).symm.trans hj
    exact Option.noConfusion (Option.some.inj this)
  refine ⟨⟨?_, ?_⟩, ?_, ?_⟩
  · intro k hk
    unfold DMesh.deleteFace at hk ⊢
    dsimp only at hk ⊢
    rcases List.mem_cons.mp hk with h | h
    · subst h
      exact List.get?_set_eq_of_lt _ hjlen
    · rw [List.get?_set_ne _ _ (fun he => hnotmem (by rw [he]; exact h))]
      exact hGF.1 k h
  · exact List.nodup_cons.mpr ⟨hnotmem, hGF.2⟩
  · intro i hi
    unfold DMesh.deleteFace
    dsimp only
    exact List.get?_set_ne _ _ (fun he => hi he.symm)
  · unfold DMesh.deleteFace
    dsimp only
    exact List.get?_set_eq_of_lt _ hjlen

/-- A batch of deletions of distinct live faces: the invariant survives and
untouched slots are preserved. -/
lemma deleteFold {D : List ℕ} : ∀ {m : DMesh}, D.Nodup →
    (∀ j ∈ D, ∃ f, m.faces.get? j = some (some f)) → GoodFaces m →
    GoodFaces (D.foldl DMesh.deleteFace m) ∧
    (∀ i, i ∉ D → (D.foldl DMesh.deleteFace m).faces.get? i = m.faces.get? i) ∧
    (D.foldl DMesh.deleteFace m).verts = m.verts := by
  induction D with
  | nil => exact fun hnd hlive hGF => ⟨hGF, fun _ _ => rfl, rfl⟩
  | cons j D ih =>
    intro m hnd hlive hGF
    rw [List.foldl_cons]
    rcases hlive j (List.mem_cons_self _ _) with ⟨f, hj⟩
    rcases deleteFace_good hj hGF with ⟨hGF1, hpres1, hset1⟩
    have hlive1 : ∀ k ∈ D, ∃ g, (m.deleteFace j).faces.get? k = some (some g) := by
      intro k hk
      have hkj : k ≠ j := fun he => (List.nodup_cons.mp hnd).1 (he ▸ hk)
      rw [hpres1 k hkj]
      exact hlive k (List.mem_cons_of_mem _ hk)
    rcases ih (List.nodup_cons.mp hnd).2 hlive1 hGF1 with ⟨hGF2, hpres2, hverts2⟩
    refine ⟨hGF2, ?_, hverts2⟩
    intro i hi
    have hij : i ≠ j := fun he => hi (he ▸ List.mem_cons_self j D)
    have hiD : i ∉ D := fun hmem => hi (List.mem_cons_of_mem _ hmem)
    rw [hpres2 i hiD, hpres1 i hij]

/-- Deletions cannot make the count predicate appear. -/
lemma deleteFold_pred_false {p : Face → Bool} (D : List ℕ) :
    ∀ (m : DMesh),
      (∀ s ∈ m.faces, (match s with | some f => p f | none => false) = false) →
      ∀ s ∈ (D.foldl DMesh.deleteFace m).faces,
        (match s with | some f => p f | none => false) = false := by
  induction D with
  | nil => exact fun m h => h
  | cons j D ih =>
    intro m h
    rw [List.foldl_cons]
    refine ih _ ?_
    intro s hs
    unfold DMesh.deleteFace at hs
    dsimp only at hs
    rcases List.mem_or_eq_of_mem_set hs with h2 | h2
    · exact h s h2
    · subst h2
      rfl

/-- Adding a batch of faces that all satisfy the count predicate raises the
count by the batch size. -/
lemma addLoop_liveCount {p : Face → Bool} :
    ∀ (L : List Face) (del : ℕ) (m : DMesh) (staged : List ℕ) (k : ℕ),
      GoodFaces m → (∀ f ∈ L, p f = true) →
      liveCount (addLoop del m staged k L).1 p = liveCount m p + L.length := by
  intro L
  induction L with
  | nil =>
    intro del m staged k _ _
    rfl
  | cons f L ih =>
    intro del m staged k hGF hall
    show liveCount (addLoop del (m.addFace f).2 _ (k + 1) L).1 p = _
    rcases hff : m.freeFaces with _ | ⟨j, rest⟩
    · have haf : (m.addFace f).2 = { m with faces := m.faces ++ [some f] } := by
        unfold DMesh.addFace
        rw [hff]
      have hG1 : GoodFaces (m.addFace f).2 := by
        rw [haf]
        exact ⟨fun k hk => absurd (by simpa using hk : k ∈ m.freeFaces)
          (by rw [hff]; exact List.not_mem_nil k), by simpa using hGF.2⟩
      have hcnt : liveCount (m.addFace f).2 p = liveCount m p + 1 := by
        rw [haf]
        unfold liveCount
        dsimp only
        rw [List.countP_append]
        simp [List.countP_cons, hall f (List.mem_cons_self _ _)]
      rw [ih del (m.addFace f).2 _ (k + 1) hG1
        (fun g hg => hall g (List.mem_cons_of_mem _ hg)), hcnt, List.length_cons]
      omega
    · have haf : (m.addFace f).2 =
          { m with faces := m.faces.set j (some f), freeFaces := rest } := by
        unfold DMesh.addFace
        rw [hff]
      have hjmem : j ∈ m.freeFaces := by
        rw [hff]
        exact List.mem_cons_self _ _
      have hjget : m.faces.get? j = some none := hGF.1 j hjmem
      have hnd : j ∉ rest ∧ rest.Nodup := by
        have := hGF.2
        rw [hff] at this
        exact List.nodup_cons.mp this
      have hG1 : GoodFaces (m.addFace f).2 := by
        rw [haf]
        refine ⟨fun k hk => ?_, hnd.2⟩
        dsimp only at hk ⊢
        have hkmem : k ∈ m.freeFaces := by
          rw [hff]
          exact List.mem_cons_of_mem _ hk
        rw [List.get?_set_ne _ _ (fun he => hnd.1 (by rw [he]; exact hk))]
        exact hGF.1 k hkmem
      have hcnt : liveCount (m.addFace f).2 p = liveCount m p + 1 := by
        rw [haf]
        unfold liveCount
        dsimp only
        rw [countP_set_of_get? _ m.faces j (some f) none hjget rfl]
        simp [hall f (List.mem_cons_self _ _)]
      rw [ih del (m.addFace f).2 _ (k + 1) hG1
        (fun g hg => hall g (List.mem_cons_of_mem _ hg)), hcnt, List.length_cons]
      omega

/-- A fold invariant that may use membership of the scanned element. -/
lemma foldl_inv_mem {α β : Type} (f : β → α → β) (P : β → Prop) :
    ∀ (L : List α), (∀ b a, a ∈ L → P b → P (f b a)) →
      ∀ b, P b → P (L.foldl f b) := by
  intro L
  induction L with
  | nil => exact fun _ b hb => hb
  | cons a L ih =>
    intro hf b hb
    rw [List.foldl_cons]
    exact ih (fun b' a' ha' hb' => hf b' a' (List.mem_cons_of_mem _ ha') hb')
      (f b a) (hf b a (List.mem_cons_self _ _) hb)

/-- `countP` only depends on the pointwise values of the predicate. -/
lemma countP_congr_eq {α : Type} {p q : α → Bool} :
    ∀ l : List α, (∀ a ∈ l, p a = q a) → l.countP p = l.countP q := by
  intro l
  induction l with
  | nil => intro _; rfl
  | cons a l ih =>
    intro h
    rw [List.countP_cons, List.countP_cons, h a (List.mem_cons_self _ _),
      ih (fun b hb => h b (List.mem_cons_of_mem _ hb))]

/-- Two meshes with the same face store have the same valences. -/
lemma valence_faces_eq {m m' : DMesh} (h : m'.faces = m.faces) (v : ℕ) :
    m'.valence v = m.valence v := by
  unfold DMesh.valence DMesh.adjacentFaces
  rw [h]

/-- The face free-list invariant transfers along equal face stores. -/
lemma GoodFaces_of_faces_eq {m m' : DMesh} (hf : m'.faces = m.faces)
    (hff : m'.freeFaces = m.freeFaces) (h : GoodFaces m) : GoodFaces m' := by
  unfold GoodFaces
  rw [hf, hff]
  exact h

/-- `NewFaces::deleteFace` does not touch the staged triples. -/
lemma markDelete_vertexIndices (nf : NewFaces) (i : ℕ) :
    ( nf.markDelete i).vertexIndices = nf.vertexIndices := by
  unfold NewFaces.markDelete
  split_ifs <;> rfl

/-- `NewFaces::deleteFace` adds at most the given index. -/
lemma markDelete_mem (nf : NewFaces) (i b : ℕ)
    (hb : b ∈ ( nf.markDelete i).facesToDelete) : b ∈ nf.facesToDelete ∨ b = i := by
  unfold NewFaces.markDelete at hb
  split_ifs at hb
  · exact Or.inl hb
  · dsimp only at hb
    rcases List.mem_append.mp hb with h | h
    · exact Or.inl h
    · exact Or.inr (List.mem_singleton.mp h)

/-- `NewFaces::deleteFace` keeps the deletion list duplicate-free. -/
lemma markDelete_nodup (nf : NewFaces) (i : ℕ)
    (h : nf.facesToDelete.Nodup) : ( nf.markDelete i).facesToDelete.Nodup := by
  unfold NewFaces.markDelete
  split_ifs with hc
  · exact h
  · dsimp only
    have hni : i ∉ nf.facesToDelete := fun hmem => hc (by simpa using hmem)
    simp [List.nodup_append, h, hni]

/-- One `addFaces` step emits exactly one replacement triple when the face is
not a link face (does not reference the second endpoint), and none when it
is. -/
lemma collapseAddFacesStep_len (m : DMesh) (newI x y a : ℕ) (nf : NewFaces)
    (hx : (m.vertexIndices a).v1 = x ∨ (m.vertexIndices a).v2 = x ∨
      (m.vertexIndices a).v3 = x)
    (hd : (m.vertexIndices a).v1 ≠ (m.vertexIndices a).v2 ∧
      (m.vertexIndices a).v1 ≠ (m.vertexIndices a).v3 ∧
      (m.vertexIndices a).v2 ≠ (m.vertexIndices a).v3)
    (hxy : x ≠ y) :
    (collapseAddFacesStep m newI x y nf a).vertexIndices.length
      = nf.vertexIndices.length +
        (if (m.vertexIndices a).v1 = y ∨ (m.vertexIndices a).v2 = y ∨
            (m.vertexIndices a).v3 = y then 0 else 1) := by
  unfold collapseAddFacesStep
  dsimp only
  rw [markDelete_vertexIndices]
  split_ifs <;>
    (try simp only [NewFaces.pushFace, List.length_append, List.length_singleton]) <;>
    omega

/-- One `addFaces` step marks at most the scanned face index for deletion. -/
lemma collapseAddFacesStep_del (m : DMesh) (newI x y a : ℕ) (nf : NewFaces) (b : ℕ)
    (hb : b ∈ (collapseAddFacesStep m newI x y nf a).facesToDelete) :
    b ∈ nf.facesToDelete ∨ b = a := by
  unfold collapseAddFacesStep at hb
  dsimp only at hb
  rcases markDelete_mem _ _ _ hb with h | h
  · left
    revert h
    split_ifs <;> exact fun h => h
  · exact Or.inr h

/-- One `addFaces` step keeps the deletion list duplicate-free. -/
lemma collapseAddFacesStep_nodup (m : DMesh) (newI x y a : ℕ) (nf : NewFaces)
    (h : nf.facesToDelete.Nodup) :
    (collapseAddFacesStep m newI x y nf a).facesToDelete.Nodup := by
  unfold collapseAddFacesStep
  dsimp only
  apply markDelete_nodup
  split_ifs <;> exact h

/-- Every triple emitted by an `addFaces` step has the new vertex first. -/
lemma collapseAddFacesStep_vi (m : DMesh) (newI x y a : ℕ) (nf : NewFaces) (g : Face)
    (hg : g ∈ (collapseAddFacesStep m newI x y nf a).vertexIndices) :
    g ∈ nf.vertexIndices ∨ g.v1 = newI := by
  unfold collapseAddFacesStep at hg
  dsimp only at hg
  rw [markDelete_vertexIndices] at hg
  revert hg
  split_ifs <;> intro hg <;>
    first
      | exact Or.inl hg
      | (simp only [NewFaces.pushFace] at hg
         rcases List.mem_append.mp hg with h | h
         · exact Or.inl h
         · right
           rw [List.mem_singleton.mp h])

/-- The `addFaces` fold over the faces incident to `x`: every scanned face
contributes one replacement triple except the link faces (those also
referencing `y`). -/
lemma collapseAddFaces_len (m : DMesh) (newI x y : ℕ) (hxy : x ≠ y) :
    ∀ (A : List ℕ) (nf : NewFaces),
      (∀ a ∈ A, ((m.vertexIndices a).v1 = x ∨ (m.vertexIndices a).v2 = x ∨
          (m.vertexIndices a).v3 = x) ∧
        ((m.vertexIndices a).v1 ≠ (m.vertexIndices a).v2 ∧
          (m.vertexIndices a).v1 ≠ (m.vertexIndices a).v3 ∧
          (m.vertexIndices a).v2 ≠ (m.vertexIndices a).v3)) →
      (A.foldl (collapseAddFacesStep m newI x y) nf).vertexIndices.length
          + A.countP (fun a => (m.vertexIndices a).has y)
        = nf.vertexIndices.length + A.length := by
  intro A
  induction A with
  | nil =>
    intro nf _
    simp
  | cons a A ih =>
    intro nf hA
    rw [List.foldl_cons, List.countP_cons, List.length_cons]
    have ha := hA a (List.mem_cons_self _ _)
    have hstep := collapseAddFacesStep_len m newI x y a nf ha.1 ha.2 hxy
    have hrec := ih (collapseAddFacesStep m newI x y nf a)
      (fun b hb => hA b (List.mem_cons_of_mem _ hb))
    have hy : ((m.vertexIndices a).has y = true) ↔
        ((m.vertexIndices a).v1 = y ∨ (m.vertexIndices a).v2 = y ∨
          (m.vertexIndices a).v3 = y) := by
      unfold Face.has
      simp only [Bool.or_eq_true, beq_iff_eq]
      tauto
    by_cases hc : ((m.vertexIndices a).v1 = y ∨ (m.vertexIndices a).v2 = y ∨
        (m.vertexIndices a).v3 = y)
    · rw [if_pos hc] at hstep
      rw [hy.mpr hc]
      simp only [if_true]
      omega
    · rw [if_neg hc] at hstep
      have hbf : (m.vertexIndices a).has y = false := by
        cases hbb : (m.vertexIndices a).has y
        · rfl
        · exact absurd (hy.mp hbb) hc
      rw [hbf]
      simp only [Bool.false_eq_true, if_false]
      omega

/-- The accounting identity of the general collapse: after the batch is
applied and the endpoints are removed, the valence of the new vertex plus the
two link-face counts equals the sum of the endpoint valences. -/
lemma collapse_general_count (m : DMesh) (i1 i2 : ℕ) (av : ℕ × DMesh) (nf : NewFaces)
    (hwf : WfMesh m) (h12 : i1 ≠ i2)
    (hav : av = m.addVertex (between (m.vertex i1) (m.vertex i2)))
    (hnf : nf = collapseAddFaces (collapseAddFaces NewFaces.empty av.2 av.1 i1 i2)
      av.2 av.1 i2 i1)
    (u : ℕ) (g : Face) (hu : m.faces.get? u = some (some g))
    (hg1 : g.has i1 = false) (hg2 : g.has i2 = false) :
    (((nf.applyToMesh av.2).1.deleteVertex i1).deleteVertex i2).valence av.1
        + (m.adjacentFaces i1).countP (fun a => (m.vertexIndices a).has i2)
        + (m.adjacentFaces i2).countP (fun a => (m.vertexIndices a).has i1)
      = m.valence i1 + m.valence i2 := by
  have hGFm : GoodFaces m := ⟨hwf.2.1, hwf.2.2.2.1⟩
  have hfaces : av.2.faces = m.faces := by
    rw [hav]
    exact (addVertex_faces m _).1
  have hfree : av.2.freeFaces = m.freeFaces := by
    rw [hav]
    exact (addVertex_faces m _).2
  have hadj : ∀ v, av.2.adjacentFaces v = m.adjacentFaces v := by
    intro v
    unfold DMesh.adjacentFaces
    rw [hfaces]
  have hviq : ∀ a, av.2.vertexIndices a = m.vertexIndices a := by
    intro a
    unfold DMesh.vertexIndices DMesh.faceAt?
    rw [hfaces]
  have hGF1 : GoodFaces av.2 := GoodFaces_of_faces_eq hfaces hfree hGFm
  have hfacts : ∀ v, ∀ a ∈ m.adjacentFaces v,
      ((m.vertexIndices a).v1 = v ∨ (m.vertexIndices a).v2 = v ∨
        (m.vertexIndices a).v3 = v) ∧
      ((m.vertexIndices a).v1 ≠ (m.vertexIndices a).v2 ∧
        (m.vertexIndices a).v1 ≠ (m.vertexIndices a).v3 ∧
        (m.vertexIndices a).v2 ≠ (m.vertexIndices a).v3) := by
    intro v a ha
    rcases mem_adjacentFaces_face ha with ⟨f, hget, hhas⟩
    have hvi : m.vertexIndices a = f := by
      unfold DMesh.vertexIndices DMesh.faceAt?
      rw [hget]
      rfl
    have hok : FaceOk m (some f) := hwf.2.2.2.2 (some f) (List.get?_mem hget)
    unfold FaceOk at hok
    rw [hvi]
    constructor
    · unfold Face.has at hhas
      simp only [Bool.or_eq_true, beq_iff_eq] at hhas
      tauto
    · exact hok.2
  have hfacts1 : ∀ a ∈ av.2.adjacentFaces i1,
      ((av.2.vertexIndices a).v1 = i1 ∨ (av.2.vertexIndices a).v2 = i1 ∨
        (av.2.vertexIndices a).v3 = i1) ∧
      ((av.2.vertexIndices a).v1 ≠ (av.2.vertexIndices a).v2 ∧
        (av.2.vertexIndices a).v1 ≠ (av.2.vertexIndices a).v3 ∧
        (av.2.vertexIndices a).v2 ≠ (av.2.vertexIndices a).v3) := by
    intro a ha
    rw [hadj i1] at ha
    rw [hviq a]
    exact hfacts i1 a ha
  have hfacts2 : ∀ a ∈ av.2.adjacentFaces i2,
      ((av.2.vertexIndices a).v1 = i2 ∨ (av.2.vertexIndices a).v2 = i2 ∨
        (av.2.vertexIndices a).v3 = i2) ∧
      ((av.2.vertexIndices a).v1 ≠ (av.2.vertexIndices a).v2 ∧
        (av.2.vertexIndices a).v1 ≠ (av.2.vertexIndices a).v3 ∧
        (av.2.vertexIndices a).v2 ≠ (av.2.vertexIndices a).v3) := by
    intro a ha
    rw [hadj i2] at ha
    rw [hviq a]
    exact hfacts i2 a ha
  have hinner := collapseAddFaces_len av.2 av.1 i1 i2 h12 (av.2.adjacentFaces i1)
    NewFaces.empty hfacts1
  have houter := collapseAddFaces_len av.2 av.1 i2 i1 (Ne.symm h12)
    (av.2.adjacentFaces i2) (collapseAddFaces NewFaces.empty av.2 av.1 i1 i2) hfacts2
  have hinnerEq : collapseAddFaces NewFaces.empty av.2 av.1 i1 i2
      = (av.2.adjacentFaces i1).foldl (collapseAddFacesStep av.2 av.1 i1 i2)
        NewFaces.empty := by
    unfold collapseAddFaces
    rfl
  have hnfEq : nf = (av.2.adjacentFaces i2).foldl (collapseAddFacesStep av.2 av.1 i2 i1)
      (collapseAddFaces NewFaces.empty av.2 av.1 i1 i2) := by
    rw [hnf]
    unfold collapseAddFaces
    rfl
  rw [← hinnerEq] at hinner
  rw [← hnfEq] at houter
  have hc1 : (av.2.adjacentFaces i1).countP (fun a => (av.2.vertexIndices a).has i2)
      = (m.adjacentFaces i1).countP (fun a => (m.vertexIndices a).has i2) := by
    rw [hadj i1]
    exact countP_congr_eq _ (fun a _ => by rw [hviq a])
  have hc2 : (av.2.adjacentFaces i2).countP (fun a => (av.2.vertexIndices a).has i1)
      = (m.adjacentFaces i2).countP (fun a => (m.vertexIndices a).has i1) := by
    rw [hadj i2]
    exact countP_congr_eq _ (fun a _ => by rw [hviq a])
  have hlen1 : (av.2.adjacentFaces i1).length = m.valence i1 := by
    rw [hadj i1]
    rfl
  have hlen2 : (av.2.adjacentFaces i2).length = m.valence i2 := by
    rw [hadj i2]
    rfl
  have hemp : NewFaces.empty.vertexIndices.length = 0 := rfl
  rw [hc1, hlen1, hemp] at hinner
  rw [hc2, hlen2] at houter
  have hDn : nf.facesToDelete.Nodup := by
    rw [hnfEq, hinnerEq]
    exact foldl_inv (fun q : NewFaces => q.facesToDelete.Nodup) _
      (fun q a hq => collapseAddFacesStep_nodup av.2 av.1 i2 i1 a q hq) _ _
      (foldl_inv (fun q : NewFaces => q.facesToDelete.Nodup) _
        (fun q a hq => collapseAddFacesStep_nodup av.2 av.1 i1 i2 a q hq) _ _
        List.nodup_nil)
  have hDsub : ∀ b ∈ nf.facesToDelete,
      b ∈ av.2.adjacentFaces i1 ∨ b ∈ av.2.adjacentFaces i2 := by
    rw [hnfEq, hinnerEq]
    refine foldl_inv_mem _ (fun q : NewFaces => ∀ b ∈ q.facesToDelete,
        b ∈ av.2.adjacentFaces i1 ∨ b ∈ av.2.adjacentFaces i2) _ ?_ _
      (foldl_inv_mem _ (fun q : NewFaces => ∀ b ∈ q.facesToDelete,
          b ∈ av.2.adjacentFaces i1 ∨ b ∈ av.2.adjacentFaces i2) _ ?_ _ ?_)
    · intro q a ha hq b hb
      rcases collapseAddFacesStep_del av.2 av.1 i2 i1 a q b hb with h | h
      · exact hq b h
      · right
        rw [h]
        exact ha
    · intro q a ha hq b hb
      rcases collapseAddFacesStep_del av.2 av.1 i1 i2 a q b hb with h | h
      · exact hq b h
      · left
        rw [h]
        exact ha
    · intro b hb
      exact absurd hb (List.not_mem_nil b)
  have hDlive : ∀ b ∈ nf.facesToDelete, ∃ f, av.2.faces.get? b = some (some f) := by
    intro b hb
    have hm : b ∈ m.adjacentFaces i1 ∨ b ∈ m.adjacentFaces i2 := by
      rcases hDsub b hb with h | h
      · rw [hadj i1] at h
        exact Or.inl h
      · rw [hadj i2] at h
        exact Or.inr h
    rcases hm with h | h <;>
      rcases mem_adjacentFaces_face h with ⟨f, hget, _⟩ <;>
      exact ⟨f, by rw [hfaces]; exact hget⟩
  rcases deleteFold hDn hDlive hGF1 with ⟨hGF2, hpres, _⟩
  have huD : u ∉ nf.facesToDelete := by
    intro hmem
    rcases hDsub u hmem with h | h
    · rw [hadj i1] at h
      rcases mem_adjacentFaces_face h with ⟨f, hget, hhas⟩
      rw [hu] at hget
      have hfg : g = f := Option.some.inj (Option.some.inj hget)
      rw [← hfg] at hhas
      rw [hg1] at hhas
      exact Bool.noConfusion hhas
    · rw [hadj i2] at h
      rcases mem_adjacentFaces_face h with ⟨f, hget, hhas⟩
      rw [hu] at hget
      have hfg : g = f := Option.some.inj (Option.some.inj hget)
      rw [← hfg] at hhas
      rw [hg2] at hhas
      exact Bool.noConfusion hhas
  have hm2u : (nf.facesToDelete.foldl DMesh.deleteFace av.2).faces.get? u
      = some (some g) := by
    rw [hpres u huD, hfaces]
    exact hu
  have hm2e : (nf.facesToDelete.foldl DMesh.deleteFace av.2).isEmpty = false :=
    isEmpty_false_of_get? hm2u
  have hap : nf.applyToMesh av.2 =
      ((addLoop nf.facesToDelete.length (nf.facesToDelete.foldl DMesh.deleteFace av.2)
          [] 0 nf.vertexIndices).1,
        (addLoop nf.facesToDelete.length (nf.facesToDelete.foldl DMesh.deleteFace av.2)
          [] 0 nf.vertexIndices).2,
        decide (nf.facesToDelete.length ≤ nf.vertexIndices.length)) := by
    unfold NewFaces.applyToMesh
    dsimp only
    rw [if_neg (by rw [hm2e]; exact Bool.false_ne_true)]
  have hall : ∀ f ∈ nf.vertexIndices, f.has av.1 = true := by
    have hv1s : ∀ f ∈ nf.vertexIndices, f.v1 = av.1 := by
      rw [hnfEq, hinnerEq]
      exact foldl_inv (fun q : NewFaces => ∀ f ∈ q.vertexIndices, f.v1 = av.1) _
        (fun q a hq f hf =>
          (collapseAddFacesStep_vi av.2 av.1 i2 i1 a q f hf).elim (hq f) id) _ _
        (foldl_inv (fun q : NewFaces => ∀ f ∈ q.vertexIndices, f.v1 = av.1) _
          (fun q a hq f hf =>
            (collapseAddFacesStep_vi av.2 av.1 i1 i2 a q f hf).elim (hq f) id) _ _
          (fun f hf => absurd hf (List.not_mem_nil f)))
    intro f hf
    unfold Face.has
    rw [hv1s f hf]
    simp
  have hzero : liveCount (nf.facesToDelete.foldl DMesh.deleteFace av.2)
      (fun f => f.has av.1) = 0 := by
    have hbase : ∀ s ∈ av.2.faces,
        (match s with | some f => f.has av.1 | none => false) = false := by
      intro s hs
      rcases s with _ | f
      · rfl
      · show f.has av.1 = false
        rw [hfaces] at hs
        rw [hav]
        exact addVertex_fresh hwf (between (m.vertex i1) (m.vertex i2)) (some f) hs f rfl
    have hall2 := deleteFold_pred_false nf.facesToDelete av.2 hbase
    unfold liveCount
    exact List.countP_eq_zero.mpr
      (fun s hs hc => by rw [hall2 s hs] at hc; exact Bool.noConfusion hc)
  have hcount := addLoop_liveCount nf.vertexIndices nf.facesToDelete.length
    (nf.facesToDelete.foldl DMesh.deleteFace av.2) [] 0 hGF2 hall
  rw [hzero] at hcount
  have hval2 : ∀ X : DMesh, ((X.deleteVertex i1).deleteVertex i2).valence av.1
      = X.valence av.1 := fun X => valence_faces_eq rfl av.1
  rw [hap]
  dsimp only
  rw [hval2, valence_eq_liveCount, hcount]
  omega

/-- The general branch of `collapseEdge` rejects the edge (returning the
inputs unchanged) when the opposite vertices coincide, when either has
valence 3, or when the common-adjacent-vertex count differs from 2. -/
lemma collapseEdge_general_reject (m : DMesh) (i1 i2 lf lv rf rv : ℕ) (fs : DynFaces)
    (h1 : m.valence i1 ≠ 3) (h2 : m.valence i2 ≠ 3)
    (hfa : findAdjacent m i1 i2 = ⟨some lf, some lv, some rf, some rv⟩)
    (hrej : lv = rv ∨ (m.valence lv = 3 ∨ m.valence rv = 3) ∨
      numCommonAdjacentVertices m i1 i2 ≠ 2) :
    collapseEdge m i1 i2 fs = (false, m, fs) := by
  unfold collapseEdge
  dsimp only
  rw [if_neg h1, if_neg h2, hfa]
  dsimp only
  by_cases he : lv = rv
  · rw [if_pos he]
  · rw [if_neg he]
    by_cases hv : m.valence lv = 3 ∨ m.valence rv = 3
    · rw [if_pos hv]
    · rw [if_neg hv]
      rcases hrej with h | h | h
      · exact absurd h he
      · exact absurd h hv
      · rw [if_neg h]

/-- The general branch of `collapseEdge` on an interior edge: the call
succeeds and the new vertex ends with valence `v1 + v2 - 4`. -/
lemma collapseEdge_general_success (m : DMesh) (i1 i2 lf lv rf rv : ℕ) (fs : DynFaces)
    (hwf : WfMesh m) (h12 : i1 ≠ i2)
    (h1 : m.valence i1 ≠ 3) (h2 : m.valence i2 ≠ 3)
    (hfa : findAdjacent m i1 i2 = ⟨some lf, some lv, some rf, some rv⟩)
    (hlr : lv ≠ rv) (hv3 : ¬(m.valence lv = 3 ∨ m.valence rv = 3))
    (hnc : numCommonAdjacentVertices m i1 i2 = 2)
    (hL1 : (m.adjacentFaces i1).countP (fun a => (m.vertexIndices a).has i2) = 2)
    (hL2 : (m.adjacentFaces i2).countP (fun a => (m.vertexIndices a).has i1) = 2)
    (u : ℕ) (g : Face) (hu : m.faces.get? u = some (some g))
    (hg1 : g.has i1 = false) (hg2 : g.has i2 = false) :
    (collapseEdge m i1 i2 fs).1 = true ∧
    (collapseEdge m i1 i2 fs).2.1.valence
        (m.addVertex (between (m.vertex i1) (m.vertex i2))).1
      = m.valence i1 + m.valence i2 - 4 := by
  have hcnt := collapse_general_count m i1 i2
    (m.addVertex (between (m.vertex i1) (m.vertex i2)))
    (collapseAddFaces (collapseAddFaces NewFaces.empty
        (m.addVertex (between (m.vertex i1) (m.vertex i2))).2
        (m.addVertex (between (m.vertex i1) (m.vertex i2))).1 i1 i2)
      (m.addVertex (between (m.vertex i1) (m.vertex i2))).2
      (m.addVertex (between (m.vertex i1) (m.vertex i2))).1 i2 i1)
    hwf h12 rfl rfl u g hu hg1 hg2
  rw [hL1, hL2] at hcnt
  unfold collapseEdge
  dsimp only
  rw [if_neg h1, if_neg h2, hfa]
  dsimp only
  rw [if_neg hlr, if_neg hv3, if_pos hnc]
  refine ⟨rfl, ?_⟩
  dsimp only
  omega

/-- C6: on an edge `(i1,i2)` of a well-formed mesh whose endpoint valences
both exceed 3 and whose two adjacent faces exist, `collapseEdge` returns
`false` with the mesh and face set unchanged when the opposite vertices
coincide, when either opposite vertex has valence 3, or when the number of
common adjacent vertices of `i1` and `i2` differs from 2; and when the
general collapse fires on an interior edge (two link faces on each side and
some live face away from the edge), the surviving new vertex satisfies
`valence(newIdx) = v1 + v2 - 4`. -/
theorem collapseEdge_spec (m : DMesh) (i1 i2 lf lv rf rv : ℕ) (fs : DynFaces)
    (hwf : WfMesh m) (h12 : i1 ≠ i2)
    (hv1 : 3 < m.valence i1) (hv2 : 3 < m.valence i2)
    (hfa : findAdjacent m i1 i2 = ⟨some lf, some lv, some rf, some rv⟩) :
    (lv = rv → collapseEdge m i1 i2 fs = (false, m, fs)) ∧
    (m.valence lv = 3 ∨ m.valence rv = 3 → collapseEdge m i1 i2 fs = (false, m, fs)) ∧
    (numCommonAdjacentVertices m i1 i2 ≠ 2 → collapseEdge m i1 i2 fs = (false, m, fs)) ∧
    (lv ≠ rv → ¬(m.valence lv = 3 ∨ m.valence rv = 3) →
      numCommonAdjacentVertices m i1 i2 = 2 →
      (m.adjacentFaces i1).countP (fun a => (m.vertexIndices a).has i2) = 2 →
      (m.adjacentFaces i2).countP (fun a => (m.vertexIndices a).has i1) = 2 →
      ∀ u g, m.faces.get? u = some (some g) → g.has i1 = false → g.has i2 = false →
        (collapseEdge m i1 i2 fs).1 = true ∧
        (collapseEdge m i1 i2 fs).2.1.valence
            (m.addVertex (between (m.vertex i1) (m.vertex i2))).1
          = m.valence i1 + m.valence i2 - 4) := by
  refine ⟨?_, ?_, ?_, ?_⟩
  · intro h
    exact collapseEdge_general_reject m i1 i2 lf lv rf rv fs (by omega) (by omega) hfa
      (Or.inl h)
  · intro h
    exact collapseEdge_general_reject m i1 i2 lf lv rf rv fs (by omega) (by omega) hfa
      (Or.inr (Or.inl h))
  · intro h
    exact collapseEdge_general_reject m i1 i2 lf lv rf rv fs (by omega) (by omega) hfa
      (Or.inr (Or.inr h))
  · intro hlr hv3 hnc hL1 hL2 u g hu hg1 hg2
    exact collapseEdge_general_success m i1 i2 lf lv rf rv fs hwf h12 (by omega) (by omega)
      hfa hlr hv3 hnc hL1 hL2 u g hu hg1 hg2

/-- Witness for C6 on the octahedron: collapsing the edge `(0,1)` (valences
4 and 4, opposite vertices 2 and 4) succeeds and the new vertex has valence
`4 + 4 - 4 = 4`. -/
theorem collapseEdge_spec_witness :
    (collapseEdge octa 0 1 ⟨[], []⟩).1 = true ∧
    (collapseEdge octa 0 1 ⟨[], []⟩).2.1.valence
        (octa.addVertex (between (octa.vertex 0) (octa.vertex 1))).1
      = octa.valence 0 + octa.valence 1 - 4 :=
  (collapseEdge_spec octa 0 1 0 2 3 4 ⟨[], []⟩ (by unfold WfMesh; decide) (by decide)
      (by decide) (by decide) (by decide)).2.2.2
    (by decide) (by decide) (by decide) (by decide) (by decide)
    5 ⟨5, 3, 2⟩ (by decide) (by decide) (by decide)

/-- C9 counterexample: `collapseDegeneratedEdges` is not idempotent.  On
`cexMesh` the first call returns `true` (it collapses the short edge `(0,6)`
and moves vertex 0 to the midpoint), which makes the edge `(0,3)` shorter
than `minEdgeLength`; the faces of `(0,3)` were already scanned before the
collapse was triggered and are never rescanned, so the first call misses
that edge and an immediately following call collapses it and returns `true`
again. -/
theorem collapseDegeneratedEdges_not_idempotent :
    (collapseDegeneratedEdges cexMesh).2 = true ∧
    (collapseDegeneratedEdges (collapseDegeneratedEdges cexMesh).1).2 = true := by
  refine ⟨?_, ?_⟩ <;> decide

/-- A rejected `deleteValence3Vertex` leaves the mesh untouched. -/
lemma deleteValence3Vertex_false {m : DMesh} {i : ℕ} {fs : DynFaces}
    {m' : DMesh} {fs' : DynFaces}
    (h : deleteValence3Vertex m i fs = (false, m', fs')) : m' = m ∧ fs' = fs := by
  unfold deleteValence3Vertex at h
  dsimp only at h
  repeat' split at h
  all_goals
    first
    | (injection h with h1 h2
       exact Bool.noConfusion h1)
    | (injection h with h1 h2
       injection h2 with h2 h3
       exact ⟨h2.symm, h3.symm⟩)

/-- A rejected `collapseEdge` leaves the mesh untouched (equation form). -/
lemma collapseEdge_false_eq {m m' : DMesh} {i1 i2 : ℕ} {fs fs' : DynFaces}
    (h : collapseEdge m i1 i2 fs = (false, m', fs')) : m' = m := by
  unfold collapseEdge at h
  dsimp only at h
  repeat' split at h
  all_goals
    first
    | (injection h with h1 h2
       exact Bool.noConfusion h1)
    | (injection h with h1 h2
       injection h2 with h2 h3
       exact h2.symm)

/-- A rejected `collapseEdge` leaves the mesh untouched. -/
lemma collapseEdge_false {m : DMesh} {i1 i2 : ℕ} {fs : DynFaces}
    (h : (collapseEdge m i1 i2 fs).1 = false) : (collapseEdge m i1 i2 fs).2.1 = m := by
  rcases h2 : collapseEdge m i1 i2 fs with ⟨b, mm, ff⟩
  rw [h2] at h
  cases b
  · simp only [h2]
    exact collapseEdge_false_eq h2
  · exact absurd h (by simp)

/-- A scan step that reports no collapse leaves the mesh untouched
(equation form). -/
lemma scanFace_false_pair {pred : DMesh → ℕ → ℕ → Bool} {m m' : DMesh}
    {c c' : Bool} {i : ℕ} (h : scanFace pred (m, c) i = (m', c'))
    (hc : c' = false) : m' = m ∧ c = false := by
  subst hc
  unfold scanFace at h
  dsimp only at h
  repeat' split at h
  all_goals
    first
    | (injection h with h1 h2
       exact ⟨h1.symm, h2⟩)
    | (injection h with h1 h2
       rcases Bool.or_eq_false_iff.mp h2 with ⟨hb, hc⟩
       exact ⟨h1.symm.trans (collapseEdge_false hb), hc⟩)

/-- A scan step that reports no collapse leaves the mesh untouched. -/
lemma scanFace_false {pred : DMesh → ℕ → ℕ → Bool} {m : DMesh} {c : Bool}
    {i : ℕ} (h : (scanFace pred (m, c) i).2 = false) :
    (scanFace pred (m, c) i).1 = m ∧ c = false := by
  rcases h2 : scanFace pred (m, c) i with ⟨m1, c1⟩
  rw [h2] at h
  exact scanFace_false_pair h2 h

/-- A whole scan that reports no collapse leaves the mesh untouched. -/
lemma scanList_false {pred : DMesh → ℕ → ℕ → Bool} :
    ∀ {L : List ℕ} {m : DMesh} {c : Bool},
      (L.foldl (scanFace pred) (m, c)).2 = false →
      (L.foldl (scanFace pred) (m, c)).1 = m ∧ c = false := by
  intro L
  induction L with
  | nil => exact fun h => ⟨rfl, h⟩
  | cons a L ih =>
    intro m c h
    rw [List.foldl_cons] at h ⊢
    rcases h2 : scanFace pred (m, c) a with ⟨m1, c1⟩
    rw [h2] at h
    rcases ih h with ⟨hm, hc1⟩
    rcases scanFace_false_pair h2 hc1 with ⟨hm1, hc⟩
    exact ⟨hm.trans hm1, hc⟩

/-- With any positive fuel the do-while loop of `collapseEdges` performs
exactly one iteration: the staging buffer of `current` is empty right after
the commit and, `collapseEdge` taking its face-set argument by value, the
scan never refills it. -/
lemma collapseLoop_stops (pred : DMesh → ℕ → ℕ → Bool) (n : ℕ) (m : DMesh)
    (faces current : DynFaces) (c : Bool) :
    collapseLoop pred (n + 1) m faces current c =
      ((collapsePass pred m faces current c).1,
       (collapsePass pred m faces current c).2.1,
       (collapsePass pred m faces current c).2.2.2, 1) := by
  rfl

/-- A `collapseEdges` run that reports no collapse returns the mesh
unchanged. -/
lemma collapseEdges_no_collapse (pred : DMesh → ℕ → ℕ → Bool) (m : DMesh)
    (faces : DynFaces) (h : (collapseEdges pred m faces).2.2.1 = false) :
    (collapseEdges pred m faces).1 = m := by
  unfold collapseEdges at h ⊢
  dsimp only at h ⊢
  rw [collapseLoop_stops] at h ⊢
  simp only [collapsePass] at h ⊢
  exact (scanList_false h).1

/-- C9 as amended: when a call of `collapseDegeneratedEdges` performs no
collapse it returns the mesh unchanged, and an immediately following call
again returns `false` (the counterexample shows that idempotence fails in
general when the first call did collapse something). -/
theorem collapseDegeneratedEdges_false_stable (m : DMesh)
    (h : (collapseDegeneratedEdges m).2 = false) :
    (collapseDegeneratedEdges m).1 = m ∧
    (collapseDegeneratedEdges (collapseDegeneratedEdges m).1).2 = false := by
  have key : (collapseDegeneratedEdges m).1 = m := by
    unfold collapseDegeneratedEdges collapseEdgesByLength at h ⊢
    exact collapseEdges_no_collapse _ m _ h
  exact ⟨key, by rw [key]; exact h⟩

/-- C9 amended-claim witness: on the octahedron (no edge is shorter than
`minEdgeLength`) the first call collapses nothing, and the theorem yields
that the second call returns `false` as well. -/
theorem collapseDegeneratedEdges_false_stable_witness :
    (collapseDegeneratedEdges (collapseDegeneratedEdges octa).1).2 = false :=
  (collapseDegeneratedEdges_false_stable octa (by decide)).2

end Dilay

namespace SplitGeo

lemma add_x (a b : RV3) : (a + b).x = a.x + b.x := rfl

lemma add_y (a b : RV3) : (a + b).y = a.y + b.y := rfl

lemma add_z (a b : RV3) : (a + b).z = a.z + b.z := rfl

lemma smul_x (c : ℝ) (v : RV3) : (c • v).x = c * v.x := rfl

lemma smul_y (c : ℝ) (v : RV3) : (c • v).y = c * v.y := rfl

lemma smul_z (c : ℝ) (v : RV3) : (c • v).z = c * v.z := rfl

/-- Cramer's rule in cross-product form: for any auxiliary vector `v` with
nonzero determinant `n1 · (n2 × v)`, the point
`(d1·(n2×v) + d2·(v×n1) + d3·(n1×n2)) / (n1 · (n2×v))` with `d1 = p1·n1`,
`d2 = p2·n2`, `d3 = p1·v` lies on all three planes `q·n1 = d1`, `q·n2 = d2`,
`q·v = d3`. -/
lemma cramer_planes (p1 p2 n1 n2 v : RV3)
    (hD : dotR n1 (crossR n2 v) ≠ 0) :
    dotR ((1 / dotR n1 (crossR n2 v)) •
        ((dotR p1 n1 • crossR n2 v) + (dotR p2 n2 • crossR v n1) +
          (dotR p1 v • crossR n1 n2))) n1 = dotR p1 n1 ∧
    dotR ((1 / dotR n1 (crossR n2 v)) •
        ((dotR p1 n1 • crossR n2 v) + (dotR p2 n2 • crossR v n1) +
          (dotR p1 v • crossR n1 n2))) n2 = dotR p2 n2 ∧
    dotR ((1 / dotR n1 (crossR n2 v)) •
        ((dotR p1 n1 • crossR n2 v) + (dotR p2 n2 • crossR v n1) +
          (dotR p1 v • crossR n1 n2))) v = dotR p1 v := by
  rcases p1 with ⟨ax, ay, az⟩
  rcases p2 with ⟨bx, by', bz⟩
  rcases n1 with ⟨cx, cy, cz⟩
  rcases n2 with ⟨dx, dy, dz⟩
  rcases v with ⟨ex, ey, ez⟩
  simp only [dotR, crossR, add_x, add_y, add_z, smul_x, smul_y, smul_z] at hD ⊢
  refine ⟨?_, ?_, ?_⟩ <;> (field_simp; ring)

/-- C4: the split position of an edge.  When the endpoint normals pass the
colinearity test the position is the midpoint `(p1+p2)/2`; otherwise it is
`0.25·p1 + 0.5·p3 + 0.25·p2` where, whenever the determinant
`n1 · (n2 × n3)` is nonzero, `p3` is the intersection point of the two
tangent planes (through `p1` normal `n1`, through `p2` normal `n2`) and the
auxiliary plane through `p1` with normal `n3 = normalize (n1 × n2)`; and the
new vertex's normal is `normalize (n1 + n2)`. -/
theorem getSplitPosition_spec (colin : RV3 → RV3 → Bool) (p1 n1 p2 n2 : RV3) :
    (colin n1 n2 = true →
      getSplitPosition colin p1 n1 p2 n2 = (1 / 2 : ℝ) • (p1 + p2)) ∧
    (colin n1 n2 = false →
      getSplitPosition colin p1 n1 p2 n2 =
        ((1 / 4 : ℝ) • p1) + ((1 / 2 : ℝ) • splitP3 p1 n1 p2 n2) +
          ((1 / 4 : ℝ) • p2)) ∧
    (dotR n1 (crossR n2 (normalizeR (crossR n1 n2))) ≠ 0 →
      dotR (splitP3 p1 n1 p2 n2) n1 = dotR p1 n1 ∧
      dotR (splitP3 p1 n1 p2 n2) n2 = dotR p2 n2 ∧
      dotR (splitP3 p1 n1 p2 n2) (normalizeR (crossR n1 n2)) =
        dotR p1 (normalizeR (crossR n1 n2))) ∧
    splitVertexNormal n1 n2 = splitVertexNormalSpec n1 n2 := by
  refine ⟨fun h => ?_, fun h => ?_, fun hD => ?_, rfl⟩
  · simp [getSplitPosition, h]
  · simp [getSplitPosition, splitP3, h]
  · exact cramer_planes p1 p2 n1 n2 (normalizeR (crossR n1 n2)) hD

/-- C4 witness: concrete endpoints `p1 = 0`, `n1 = e_x`, `p2 = (1,2,3)`,
`n2 = e_y` with a colinearity test that reports `false`; the determinant is
1, and the theorem places the result on the fan formula with `p3` on the
tangent plane at `p2`. -/
theorem getSplitPosition_spec_witness :
    dotR (splitP3 ⟨0, 0, 0⟩ ⟨1, 0, 0⟩ ⟨1, 2, 3⟩ ⟨0, 1, 0⟩) ⟨0, 1, 0⟩ =
      dotR ⟨1, 2, 3⟩ ⟨0, 1, 0⟩ ∧
    getSplitPosition (fun _ _ => false) ⟨0, 0, 0⟩ ⟨1, 0, 0⟩ ⟨1, 2, 3⟩ ⟨0, 1, 0⟩ =
      ((1 / 4 : ℝ) • ⟨0, 0, 0⟩) +
        ((1 / 2 : ℝ) • splitP3 ⟨0, 0, 0⟩ ⟨1, 0, 0⟩ ⟨1, 2, 3⟩ ⟨0, 1, 0⟩) +
        ((1 / 4 : ℝ) • ⟨1, 2, 3⟩) := by
  have h := getSplitPosition_spec (fun _ _ => false) ⟨0, 0, 0⟩ ⟨1, 0, 0⟩ ⟨1, 2, 3⟩ ⟨0, 1, 0⟩
  have hD : dotR ⟨1, 0, 0⟩
      (crossR ⟨0, 1, 0⟩ (normalizeR (crossR ⟨1, 0, 0⟩ ⟨0, 1, 0⟩))) ≠ 0 := by
    simp only [dotR, crossR, normalizeR, smul_x, smul_y, smul_z]
    norm_num
  exact ⟨(h.2.2.1 hD).2.1, h.2.1 rfl⟩

end SplitGeo
